import Mathlib

/-!
Verification of the ingestion-and-index-mapping core of the `rucool/hurricanes`
repository: the NHC advisory pipeline (`current_storms/current_forecast_track.py`),
the region catalog (`hurricanes/regions.py`) and the grid index mapper
(`scripts/maps/models/synchronous/rtofs-cmems.py` and `rtofs-gofs-cmems.py`).

Python strings are modelled as `List Char`; Python `str.split(sep)` (non-empty
separator, leftmost non-overlapping occurrences, empty pieces kept) is
`splitOnNE`; Python substring membership `sub in s` is `hasSubstr`; Python
`float(text)` on plain decimal literals is `parseFloat` (sign, optional integer
part, optional fractional part, surrounding whitespace stripped; exponents and
special values such as `inf`, which never occur in the data handled by this
code, are not modelled).  Fallible Python code (uncaught `IndexError` /
`ValueError` exceptions) is modelled with `Except PyErr`.
-/

/-- Python strings, modelled as lists of characters. -/
abbrev Str := List Char

/-- String literal to `Str` conversion. -/
def lit (s : String) : Str := s.toList

/-- `hasPrefixL pat s` : `pat` is a prefix of `s` (Python `s.startswith(pat)`). -/
def hasPrefixL : Str → Str → Bool
  | [], _ => true
  | _ :: _, [] => false
  | a :: as, b :: bs => a == b && hasPrefixL as bs

/-- `hasSubstr pat s` : Python substring test `pat in s`. -/
def hasSubstr (pat : Str) : Str → Bool
  | [] => hasPrefixL pat []
  | c :: rest => hasPrefixL pat (c :: rest) || hasSubstr pat rest

/-- Fuel-driven worker for `splitOnNE` (fuel `≥` length of the string makes the
fuel irrelevant; see `splitGo_fuel`). -/
def splitGo (c0 : Char) (s0 : Str) : Nat → Str → List Str
  | _, [] => [[]]
  | 0, s => [s]
  | fuel + 1, c :: rest =>
    if hasPrefixL (c0 :: s0) (c :: rest) then
      [] :: splitGo c0 s0 fuel (rest.drop s0.length)
    else
      match splitGo c0 s0 fuel rest with
      | [] => [[c]]
      | r :: rs => (c :: r) :: rs

/-- Python `s.split(sep)` for the non-empty separator `c0 :: s0`: split on each
leftmost non-overlapping occurrence, keeping empty pieces. -/
def splitOnNE (c0 : Char) (s0 : Str) (s : Str) : List Str :=
  splitGo c0 s0 s.length s

/-- Numeric value of a digit string. -/
def digitsVal (ds : Str) : ℕ :=
  ds.foldl (fun acc c => 10 * acc + (c.toNat - 48)) 0

/-- An exact decimal number, the result of Python `float(text)` on a decimal
literal: the value is `(if neg then -1 else 1) * mantissa / 10 ^ scale`
(see `DecNum.toRat`).  Coordinates flowing through the pipeline are such
exact decimals; binary floating-point rounding is outside the model. -/
structure DecNum where
  neg : Bool
  mantissa : ℕ
  scale : ℕ
deriving DecidableEq

/-- The rational value of an exact decimal. -/
def DecNum.toRat (d : DecNum) : ℚ :=
  (if d.neg then -1 else 1) * (d.mantissa : ℚ) / (10 : ℚ) ^ d.scale

/-- Python `float(text)` on plain decimal literals: strip surrounding
whitespace, optional sign, digits with an optional single decimal point
(at least one digit required); anything else fails (`none` models the
`ValueError` raised by `float`). -/
def parseFloat (s : Str) : Option DecNum :=
  let t := ((s.dropWhile Char.isWhitespace).reverse.dropWhile Char.isWhitespace).reverse
  let su : Bool × Str :=
    match t with
    | '-' :: r => (true, r)
    | '+' :: r => (false, r)
    | _ => (false, t)
  let ip := su.2.takeWhile Char.isDigit
  let r1 := su.2.dropWhile Char.isDigit
  match r1 with
  | [] => if ip.isEmpty then none else some ⟨su.1, digitsVal ip, 0⟩
  | '.' :: r2 =>
    let fp := r2.takeWhile Char.isDigit
    let r3 := r2.dropWhile Char.isDigit
    if r3.isEmpty && !(ip.isEmpty && fp.isEmpty) then
      some ⟨su.1, digitsVal (ip ++ fp), fp.length⟩
    else none
  | _ => none

/-- Uncaught Python exceptions that the modelled code can raise. -/
inductive PyErr where
  | indexError : PyErr
  | valueError : Str → PyErr
deriving DecidableEq

/-- Python `xs[i]` on a list: the element, or an uncaught `IndexError`. -/
def pyIndex {α : Type} (l : List α) (i : ℕ) : Except PyErr α :=
  match l.get? i with
  | some a => .ok a
  | none => .error .indexError

/-- Python `float(text)` as a fallible operation. -/
def pyFloat (s : Str) : Except PyErr DecNum :=
  match parseFloat s with
  | some q => .ok q
  | none => .error (.valueError s)

section SplitLemmas

variable (c0 : Char) (s0 : Str)

theorem splitGo_ne_nil : ∀ fuel s, splitGo c0 s0 fuel s ≠ [] := by
  intro fuel
  induction fuel with
  | zero => intro s; cases s <;> simp [splitGo]
  | succ n ih =>
    intro s
    cases s with
    | nil => simp [splitGo]
    | cons c rest =>
      simp only [splitGo]
      split
      · simp
      · split
        · simp
        · simp

theorem splitGo_fuel : ∀ fuel s, s.length ≤ fuel →
    splitGo c0 s0 fuel s = splitGo c0 s0 s.length s := by
  intro fuel
  induction fuel using Nat.strong_induction_on with
  | _ fuel ih =>
    intro s hs
    cases s with
    | nil => cases fuel <;> rfl
    | cons c rest =>
      cases fuel with
      | zero => simp at hs
      | succ n =>
        have hrest : rest.length ≤ n := by
          simpa [Nat.succ_le_succ_iff] using hs
        simp only [splitGo, List.length_cons]
        split
        · have hd : (rest.drop s0.length).length ≤ rest.length := by
            simp [List.length_drop]
          rw [ih n (by omega) _ (le_trans hd hrest),
              ih rest.length (by omega) _ hd]
        · rw [ih n (by omega) rest hrest,
              ih rest.length (by omega) rest (le_refl _)]

theorem splitOnNE_ne_nil (s : Str) : splitOnNE c0 s0 s ≠ [] :=
  splitGo_ne_nil c0 s0 _ s

theorem splitOnNE_nil : splitOnNE c0 s0 [] = [[]] := rfl

theorem splitOnNE_cons_pos (c : Char) (rest : Str)
    (h : hasPrefixL (c0 :: s0) (c :: rest) = true) :
    splitOnNE c0 s0 (c :: rest) = [] :: splitOnNE c0 s0 (rest.drop s0.length) := by
  have hd : (rest.drop s0.length).length ≤ rest.length := by
    simp [List.length_drop]
  simp only [splitOnNE, List.length_cons, splitGo, h, if_true]
  rw [splitGo_fuel c0 s0 rest.length _ hd]

theorem splitOnNE_cons_neg (c : Char) (rest : Str)
    (h : hasPrefixL (c0 :: s0) (c :: rest) = false) :
    ∀ r rs, splitOnNE c0 s0 rest = r :: rs →
      splitOnNE c0 s0 (c :: rest) = (c :: r) :: rs := by
  intro r rs hsplit
  simp only [splitOnNE, List.length_cons, splitGo, h]
  simp only [Bool.false_eq_true, if_false]
  rw [show splitGo c0 s0 rest.length rest = splitOnNE c0 s0 rest from rfl, hsplit]

end SplitLemmas

section PrefixLemmas

theorem hasPrefixL_append_self (p t : Str) : hasPrefixL p (p ++ t) = true := by
  induction p with
  | nil => rfl
  | cons a as ih => simp [hasPrefixL, ih]

theorem hasPrefixL_shrink :
    ∀ (p u t : Str), hasPrefixL p (u ++ t) = true → p.length ≤ u.length →
      hasPrefixL p u = true := by
  intro p
  induction p with
  | nil => intro u t _ _; rfl
  | cons a as ih =>
    intro u t h hlen
    cases u with
    | nil => simp at hlen
    | cons x u' =>
      simp only [List.cons_append, hasPrefixL, Bool.and_eq_true] at h ⊢
      exact ⟨h.1, ih u' t h.2 (by simpa using hlen)⟩

theorem hasSubstr_cons_false {pat : Str} {c : Char} {rest : Str}
    (h : hasSubstr pat (c :: rest) = false) :
    hasPrefixL pat (c :: rest) = false ∧ hasSubstr pat rest = false := by
  simp only [hasSubstr, Bool.or_eq_false_iff] at h
  exact h

theorem splitOnNE_no_occ (c0 : Char) (s0 : Str) :
    ∀ s : Str, hasSubstr (c0 :: s0) s = false → splitOnNE c0 s0 s = [s] := by
  intro s
  induction s with
  | nil => intro _; rfl
  | cons c rest ih =>
    intro h
    obtain ⟨h0, h1⟩ := hasSubstr_cons_false h
    exact splitOnNE_cons_neg c0 s0 c rest h0 rest [] (ih h1)

theorem splitOnNE_append (c0 : Char) (s0 : Str) :
    ∀ a b : Str, hasSubstr (c0 :: s0) (a ++ (c0 :: s0).dropLast) = false →
      splitOnNE c0 s0 (a ++ (c0 :: s0) ++ b) = a :: splitOnNE c0 s0 b := by
  intro a
  induction a with
  | nil =>
    intro b _
    have hp : hasPrefixL (c0 :: s0) (c0 :: (s0 ++ b)) = true := by
      have := hasPrefixL_append_self (c0 :: s0) b
      simpa using this
    simp only [List.nil_append]
    rw [show (c0 :: s0) ++ b = c0 :: (s0 ++ b) from rfl,
        splitOnNE_cons_pos c0 s0 _ _ hp, List.drop_left]
  | cons c a' ih =>
    intro b h
    rw [show (c :: a') ++ (c0 :: s0).dropLast = c :: (a' ++ (c0 :: s0).dropLast) from rfl] at h
    obtain ⟨h0, h1⟩ := hasSubstr_cons_false h
    have hne : (c0 :: s0) ≠ ([] : Str) := by simp
    have hdec : (c0 :: s0).dropLast ++ [(c0 :: s0).getLast hne] = c0 :: s0 :=
      List.dropLast_append_getLast hne
    have hnp : hasPrefixL (c0 :: s0) (c :: (a' ++ (c0 :: s0) ++ b)) = false := by
      by_contra hcon
      have hp : hasPrefixL (c0 :: s0) (c :: (a' ++ (c0 :: s0) ++ b)) = true := by
        revert hcon; cases hasPrefixL (c0 :: s0) (c :: (a' ++ (c0 :: s0) ++ b)) <;> simp
      have hassoc : c :: (a' ++ (c0 :: s0) ++ b) =
          (c :: (a' ++ (c0 :: s0).dropLast)) ++ ([(c0 :: s0).getLast hne] ++ b) := by
        conv_lhs => rw [← hdec]
        simp
      rw [hassoc] at hp
      have hlen : (c0 :: s0).length ≤ (c :: (a' ++ (c0 :: s0).dropLast)).length := by
        simp only [List.length_cons, List.length_append, List.length_dropLast]
        omega
      have := hasPrefixL_shrink (c0 :: s0) _ _ hp hlen
      rw [h0] at this
      exact Bool.false_ne_true this
    have hrec := ih b h1
    rw [show (c :: a') ++ (c0 :: s0) ++ b = c :: (a' ++ (c0 :: s0) ++ b) from rfl]
    exact splitOnNE_cons_neg c0 s0 c _ hnp _ _ hrec

end PrefixLemmas

/-- Sanity anchors for the Python string model: `'a,0b,0'.split(',0')`,
`'-85,25,0'.split(',')`, overlapping-separator behaviour, `float` parsing
and substring membership behave as in Python. -/
theorem python_string_model_sanity :
    splitOnNE ',' (lit "0") (lit "a,0b,0") = [lit "a", lit "b", []] ∧
    splitOnNE ',' [] (lit "-85,25,0") = [lit "-85", lit "25", lit "0"] ∧
    splitOnNE 'a' (lit "a") (lit "aaa") = [[], lit "a"] ∧
    parseFloat (lit " -84.5 ") = some ⟨true, 845, 1⟩ ∧
    parseFloat (lit "x") = none ∧
    parseFloat (lit ".5") = some ⟨false, 5, 1⟩ ∧
    hasSubstr (lit "kmz") (lit "abkmzc") = true := by
  refine ⟨by decide, by decide, by decide, by decide, by decide, by decide, by decide⟩

/-! ## Geometry-markup model (`current_storms/current_forecast_track.py`)

A markup element is modelled by the list of its descendant text fragments in
document order; BeautifulSoup's `get_text(sep)` joins them with the separator.
A geometry document (`KmlDoc`) records the `<coordinates>` elements found by
`find_all("coordinates")` and the `<Point>` elements found by
`find_all("point")`, each in document order. -/

/-- A markup element: its descendant string fragments in document order. -/
abbrev Elem := List Str

/-- BeautifulSoup `element.get_text(sep)`. -/
def getText (sep : Str) (e : Elem) : Str := List.intercalate sep e

/-- The geometry-markup content of one advisory document. -/
structure KmlDoc where
  coordinatesElems : List Elem
  pointElems : List Elem
deriving DecidableEq

/-- The word used by the source both as a `get_text` separator and as a split
separator. -/
def coordWord : Str := lit "coordinates"

/-- The shared per-point parsing step of `get_cone_coordinates` (lines 64-65)
and `get_track_coordinates` (lines 75-76):
`lon = float(st.split(',')[0]); lat = float(st.split(',')[1])` —
only the first two comma-separated fields of `st` are examined. -/
def parseLonLat (st : Str) : Except PyErr (DecNum × DecNum) := do
  let f0 ← pyIndex (splitOnNE ',' [] st) 0
  let lon ← pyFloat f0
  let f1 ← pyIndex (splitOnNE ',' [] st) 1
  let lat ← pyFloat f1
  pure (lon, lat)

/-- Parallel longitude/latitude arrays, as in the source's
`dict(lon=np.array([]), lat=np.array([]))`. -/
structure Geo where
  lon : List DecNum
  lat : List DecNum
deriving DecidableEq

/-- Inner loop of `get_cone_coordinates`: `for st in coor[1:-1]`, appending the
parsed pair to the accumulated arrays. -/
def coneInner : List Str → Geo → Except PyErr Geo
  | [], cone => .ok cone
  | st :: rest, cone => do
    let p ← parseLonLat st
    coneInner rest ⟨cone.lon ++ [p.1], cone.lat ++ [p.2]⟩

/-- Outer loop of `get_cone_coordinates` (lines 61-67): for each
`<coordinates>` element, `coor = s.get_text('coordinates').split(',0')` and the
window `coor[1:-1]` is parsed. -/
def coneOuter : List Elem → Geo → Except PyErr Geo
  | [], cone => .ok cone
  | e :: rest, cone => do
    let coor := splitOnNE ',' (lit "0") (getText coordWord e)
    let cone2 ← coneInner ((coor.drop 1).dropLast) cone
    coneOuter rest cone2

/-- `get_cone_coordinates` (source lines 58-68): the spec's
`extract_region_boundary`. -/
def get_cone_coordinates (doc : KmlDoc) : Except PyErr Geo :=
  coneOuter doc.coordinatesElems ⟨[], []⟩

/-- Loop of `get_track_coordinates` (lines 74-78): for each `<Point>` element,
`st = s.get_text("coordinates").split('coordinates')[1]` and `st` is parsed. -/
def trackLoop : List Elem → Geo → Except PyErr Geo
  | [], track => .ok track
  | e :: rest, track => do
    let st ← pyIndex (splitOnNE 'c' (lit "oordinates") (getText coordWord e)) 1
    let p ← parseLonLat st
    trackLoop rest ⟨track.lon ++ [p.1], track.lat ++ [p.2]⟩

/-- `get_track_coordinates` (source lines 71-79): the spec's
`extract_path_points`. -/
def get_track_coordinates (doc : KmlDoc) : Except PyErr Geo :=
  trackLoop doc.pointElems ⟨[], []⟩

/-! ## Archive directory resolver and storm bundle correlator -/

/-- Marker selecting cone products (source line 44). -/
def coneLatestMark : Str := lit "CONE_latest"
/-- Marker selecting track products (source line 48). -/
def trackLatestMark : Str := lit "TRACK_latest"
/-- Marker selecting best-track products (source line 52). -/
def bestTrackMark : Str := lit "best_track"
/-- The archive-file marker (source line 42). -/
def kmzMark : Str := lit "kmz"
/-- Uppercase track filter used by `main` (line 93). -/
def trackMark : Str := lit "TRACK"
/-- Cone filter used by `main` (line 111). -/
def coneMark : Str := lit "CONE"

/-- `endsWithL pat s` : `s` ends with `pat` (used to model `glob` patterns
`*.kmz`, `*.zip`, `*.kml`). -/
def endsWithL (pat s : Str) : Bool := hasPrefixL pat.reverse s.reverse

/-- Python `s[:-n]`: the string minus its last `n` characters. -/
def pyDropEnd (n : ℕ) (s : Str) : Str := s.take (s.length - n)

/-- One anchor of the NHC listing processed by `download_current_kmz`
(source lines 40-55): if the href contains both `kmz` and the reference year,
each of the three category markers it contains triggers a download whose
target file name is `ff.split('/')[3]` for cone and track and
`ff.split('/')[1]` for best track.  Returns the downloaded file names. -/
def processHref (year : Str) (ff : Str) : Except PyErr (List Str) :=
  if hasSubstr kmzMark ff && hasSubstr year ff then do
    let l1 ← (if hasSubstr coneLatestMark ff then do
        let nm ← pyIndex (splitOnNE '/' [] ff) 3
        pure [nm]
      else pure ([] : List Str))
    let l2 ← (if hasSubstr trackLatestMark ff then do
        let nm ← pyIndex (splitOnNE '/' [] ff) 3
        pure [nm]
      else pure ([] : List Str))
    let l3 ← (if hasSubstr bestTrackMark ff then do
        let nm ← pyIndex (splitOnNE '/' [] ff) 1
        pure [nm]
      else pure ([] : List Str))
    pure (l1 ++ l2 ++ l3)
  else pure []

/-- `download_current_kmz` (source lines 30-55) over a fetched listing:
the concatenated downloads of every anchor, in listing order. -/
def download_current_kmz (year : Str) : List Str → Except PyErr (List Str)
  | [] => .ok []
  | ff :: rest => do
    let names ← processHref year ff
    let more ← download_current_kmz year rest
    pure (names ++ more)

/-- File names present in the working directory after the downloads: repeated
downloads of the same name overwrite, so each name appears once. -/
def dedupKeepFirst : List Str → List Str
  | [] => []
  | x :: xs => x :: (dedupKeepFirst xs).filter (fun y => !(x == y))

/-- A fixed presentation style (`dict(ls=..., color=..., lw=..., name=...)`). -/
structure PltOpts where
  ls : String
  color : String
  lw : ℕ
  name : String
deriving DecidableEq

/-- `dict(ls='-.', color='gold', lw=2, name='Forecast Track')` (line 108). -/
def forecastTrackPlt : PltOpts := ⟨"-.", "gold", 2, "Forecast Track"⟩
/-- `dict(ls='-.', color='blue', lw=1, name='Forecast Cone')` (line 119). -/
def forecastConePlt : PltOpts := ⟨"-.", "blue", 1, "Forecast Cone"⟩
/-- `dict(ls=':', color='magenta', lw=3, name='Best Track')` (line 130). -/
def bestTrackPlt : PltOpts := ⟨":", "magenta", 3, "Best Track"⟩

/-- A coordinate sequence together with its presentation style. -/
structure GeoStyled where
  geo : Geo
  plt : PltOpts
deriving DecidableEq

/-- One storm's record in the returned `tracks` dictionary. -/
structure StormBundle where
  forecast_track : GeoStyled
  forecast_cone : GeoStyled
  best_track : GeoStyled
deriving DecidableEq

/-- Python dict assignment `tracks[name] = v` on an insertion-ordered
association list. -/
def dictInsert (d : List (Str × StormBundle)) (k : Str) (v : StormBundle) :
    List (Str × StormBundle) :=
  if d.any (fun kv => kv.1 == k) then
    d.map (fun kv => if kv.1 == k then (k, v) else kv)
  else d ++ [(k, v)]

/-- One ingestion run's external world: the hrefs of the fetched NHC listing,
and for each downloaded archive (keyed by its file name minus the 4-character
extension) the member files it unpacks to. -/
structure RunEnv where
  hrefs : List Str
  archives : Str → List (Str × KmlDoc)

/-- `kml_f = glob.glob(f[:-4]+'/*.kml')` followed by
`kmz.open(kml_f[0].split('/')[1]).read()` (lines 101-102, 113-114, 124-125):
the first `.kml` member of the unpacked archive, an `IndexError` if there is
none; further members are ignored. -/
def firstKmlDoc (env : RunEnv) (base : Str) : Except PyErr KmlDoc := do
  let m ← pyIndex ((env.archives base).filter (fun mem => endsWithL (lit ".kml") mem.1)) 0
  pure m.2

/-- Body of the `for i, f in enumerate(zip_files_track_latest)` loop of `main`
(lines 96-130): parse the track document, then locate and parse the unique
cone and best-track companions via
`[fl for fl in zip_files if f.split('_')[0][2:] in fl and MARK in fl][0]`. -/
def bundleStep (env : RunEnv) (zipFiles : List Str)
    (tracks : List (Str × StormBundle)) (f : Str) :
    Except PyErr (List (Str × StormBundle)) := do
  let name ← pyIndex (splitOnNE '_' [] f) 0
  if hasSubstr trackMark f then
    let kmlTrack ← firstKmlDoc env (pyDropEnd 4 f)
    let ft ← get_track_coordinates kmlTrack
    let coneZip ← pyIndex (zipFiles.filter
      (fun fl => hasSubstr (name.drop 2) fl && hasSubstr coneMark fl)) 0
    let kmlCone ← firstKmlDoc env (pyDropEnd 4 coneZip)
    let cone ← get_cone_coordinates kmlCone
    let bestZip ← pyIndex (zipFiles.filter
      (fun fl => hasSubstr (name.drop 2) fl && hasSubstr bestTrackMark fl)) 0
    let kmlBest ← firstKmlDoc env (pyDropEnd 4 bestZip)
    let bt ← get_track_coordinates kmlBest
    pure (dictInsert tracks name
      ⟨⟨ft, forecastTrackPlt⟩, ⟨cone, forecastConePlt⟩, ⟨bt, bestTrackPlt⟩⟩)
  else
    pure tracks

/-- The `for` loop of `main` over the track zip files. -/
def bundleLoop (env : RunEnv) (zipFiles : List Str) :
    List Str → List (Str × StormBundle) → Except PyErr (List (Str × StormBundle))
  | [], tracks => .ok tracks
  | f :: rest, tracks => do
    let tracks2 ← bundleStep env zipFiles tracks f
    bundleLoop env zipFiles rest tracks2

/-- `main(today)` (source lines 82-133): download the advisories for the
reference year, copy each `*.kmz` to a `*.zip` and unpack it, keep the zip
files containing `al` or `AL`, and build one bundle per `TRACK` zip. -/
def mainRun (year : Str) (env : RunEnv) : Except PyErr (List (Str × StormBundle)) := do
  let downloads ← download_current_kmz year env.hrefs
  let kmzFiles := (dedupKeepFirst downloads).filter (fun f => endsWithL (lit ".kmz") f)
  let zipNames := kmzFiles.map (fun f => pyDropEnd 3 f ++ lit "zip")
  let zipFiles := zipNames.filter (fun f => hasSubstr (lit "al") f || hasSubstr (lit "AL") f)
  let trackZips := zipFiles.filter (fun f => hasSubstr trackMark f)
  bundleLoop env zipFiles trackZips []

/-! ## Concrete run inputs for the 2021-09-10 scenario and its variants -/

/-- Listing href of `AL052021_5day_TRACK_latest.kmz` (cone/track hrefs carry
three path separators; the file name is the segment after the third). -/
def hrefTrackC6 : Str := lit "a/b/c/AL052021_5day_TRACK_latest.kmz"
/-- Listing href of `AL052021_5day_CONE_latest.kmz`. -/
def hrefConeC6 : Str := lit "a/b/c/AL052021_5day_CONE_latest.kmz"
/-- Listing href of `AL052021_best_track.kmz` (best-track hrefs carry one path
separator; the file name is the segment after the first). -/
def hrefBestC6 : Str := lit "x/AL052021_best_track.kmz"

/-- Forecast-track document: two `<Point>` elements. -/
def trackDocC6 : KmlDoc := ⟨[], [[[], lit "-85,25,0"], [[], lit "-84,26,0"]]⟩
/-- Cone document: one `<coordinates>` element holding a closed 4-point ring. -/
def coneDocC6 : KmlDoc := ⟨[[lit "-85,25,0 -84,26,0 -83,27,0 -85,25,0"]], []⟩
/-- Best-track document: two `<Point>` elements. -/
def bestDocC6 : KmlDoc := ⟨[], [[[], lit "-80,20,0"], [[], lit "-79,21,0"]]⟩

/-- The reference-date-2021 run input whose listing holds exactly the three
AL052021 advisory archives. -/
def envC6 : RunEnv := ⟨[hrefTrackC6, hrefConeC6, hrefBestC6], fun base =>
  if base == lit "AL052021_5day_TRACK_latest" then [(lit "t.kml", trackDocC6)]
  else if base == lit "AL052021_5day_CONE_latest" then [(lit "c.kml", coneDocC6)]
  else if base == lit "AL052021_best_track" then [(lit "b.kml", bestDocC6)]
  else []⟩

/-- The bundle the scenario run produces for storm `AL052021`. -/
def bundleC6 : StormBundle :=
  ⟨⟨⟨[⟨true,85,0⟩,⟨true,84,0⟩],[⟨false,25,0⟩,⟨false,26,0⟩]⟩, forecastTrackPlt⟩,
   ⟨⟨[⟨true,84,0⟩,⟨true,83,0⟩,⟨true,85,0⟩],[⟨false,26,0⟩,⟨false,27,0⟩,⟨false,25,0⟩]⟩,
     forecastConePlt⟩,
   ⟨⟨[⟨true,80,0⟩,⟨true,79,0⟩],[⟨false,20,0⟩,⟨false,21,0⟩]⟩, bestTrackPlt⟩⟩

/-- A run input whose listing holds only the Track archive (for an arbitrary
track document `d`): no Cone companion exists. -/
def envC2 (d : KmlDoc) : RunEnv := ⟨[hrefTrackC6], fun base =>
  if base == lit "AL052021_5day_TRACK_latest" then [(lit "t.kml", d)] else []⟩

/-- A run input where the Track archive unpacks to zero geometry documents. -/
def envC3zero : RunEnv := ⟨[hrefTrackC6, hrefConeC6, hrefBestC6], fun base =>
  if base == lit "AL052021_5day_TRACK_latest" then []
  else if base == lit "AL052021_5day_CONE_latest" then [(lit "c.kml", coneDocC6)]
  else if base == lit "AL052021_best_track" then [(lit "b.kml", bestDocC6)]
  else []⟩

/-- A run input where the Track archive unpacks to two geometry documents
`d1` and `d2`. -/
def envC3two (d1 d2 : KmlDoc) : RunEnv := ⟨[hrefTrackC6, hrefConeC6, hrefBestC6], fun base =>
  if base == lit "AL052021_5day_TRACK_latest" then [(lit "a.kml", d1), (lit "b.kml", d2)]
  else if base == lit "AL052021_5day_CONE_latest" then [(lit "c.kml", coneDocC6)]
  else if base == lit "AL052021_best_track" then [(lit "b.kml", bestDocC6)]
  else []⟩

/-- The same run input with only the first of the two documents. -/
def envC3one (d1 : KmlDoc) : RunEnv := ⟨[hrefTrackC6, hrefConeC6, hrefBestC6], fun base =>
  if base == lit "AL052021_5day_TRACK_latest" then [(lit "a.kml", d1)]
  else if base == lit "AL052021_5day_CONE_latest" then [(lit "c.kml", coneDocC6)]
  else if base == lit "AL052021_best_track" then [(lit "b.kml", bestDocC6)]
  else []⟩

/-- A second, different track document for the two-document archive. -/
def altTrackDocC3 : KmlDoc := ⟨[], [[[], lit "-1,2,0"]]⟩

/-- C6: with reference year 2021 (all `main` uses of the 2021-09-10 reference
date is its year) and a listing containing exactly
`AL052021_5day_TRACK_latest.kmz`, `AL052021_5day_CONE_latest.kmz` and
`AL052021_best_track.kmz`, the run returns a mapping with exactly one
StormBundle, keyed by the storm name `AL052021` derived from basin `AL05`,
all three geometries populated, and the fixed presentation styles: dash-dot
gold width 2 for the forecast track, dash-dot blue width 1 for the cone,
dotted magenta width 3 for the best track. -/
theorem c6_end_to_end_scenario :
    mainRun (lit "2021") envC6 = .ok [(lit "AL052021", bundleC6)] ∧
    hasSubstr (lit "AL05") (lit "AL052021") = true ∧
    bundleC6.forecast_track.plt = ⟨"-.", "gold", 2, "Forecast Track"⟩ ∧
    bundleC6.forecast_cone.plt = ⟨"-.", "blue", 1, "Forecast Cone"⟩ ∧
    bundleC6.best_track.plt = ⟨":", "magenta", 3, "Best Track"⟩ ∧
    bundleC6.forecast_track.geo.lon ≠ [] ∧
    bundleC6.forecast_cone.geo.lon ≠ [] ∧
    bundleC6.best_track.geo.lon ≠ [] :=
  ⟨rfl, rfl, rfl, rfl, rfl, by decide, by decide, by decide⟩

/-- C2 counterexample: on the concrete run input whose listing holds a Track
file for basin AL05 but no Cone file at all, the correlator does not skip the
Track file and return a mapping without that storm — it aborts with an
uncaught `IndexError`, refuting the claim at this input. -/
theorem c2_counterexample :
    mainRun (lit "2021") (envC2 trackDocC6) = .error .indexError := rfl

/-- C2 (amended): for every track document `d` that parses successfully, a run
whose listing holds only that Track file (so the Cone bucket has no file
containing the basin code substring) aborts with an uncaught `IndexError`
raised by the empty cone lookup `[...][0]`; no mapping is returned at all. -/
theorem c2_amended_abort (d : KmlDoc) (g : Geo)
    (hg : get_track_coordinates d = .ok g) :
    mainRun (lit "2021") (envC2 d) = .error .indexError := by
  show Except.bind (Except.bind (get_track_coordinates d)
      (fun _ => Except.error PyErr.indexError))
      (fun t2 => Except.ok t2) = Except.error PyErr.indexError
  rw [hg]
  rfl

/-- C2 witness: the amended theorem applied to the concrete two-point track
document. -/
theorem c2_amended_abort_witness :
    get_track_coordinates trackDocC6 =
      .ok ⟨[⟨true,85,0⟩,⟨true,84,0⟩],[⟨false,25,0⟩,⟨false,26,0⟩]⟩ ∧
    mainRun (lit "2021") (envC2 trackDocC6) = .error .indexError :=
  ⟨rfl, c2_amended_abort trackDocC6 _ rfl⟩

/-- C3 counterexample: on the concrete run input whose Track archive unpacks
to two geometry documents, the extractor does not fail — the run succeeds,
silently using the first document, refuting the claim at this input. -/
theorem c3_counterexample :
    mainRun (lit "2021") (envC3two trackDocC6 altTrackDocC3) =
      .ok [(lit "AL052021", bundleC6)] := rfl

/-- C3 (amended): an archive that unpacks to zero geometry documents makes the
run abort with an uncaught `IndexError` (`kml_f[0]`), rather than an
`ExtractionError` that skips the file; an archive that unpacks to more than
one geometry document is not an error at all — the run behaves exactly as if
only the first document were present. -/
theorem c3_amended_extraction :
    mainRun (lit "2021") envC3zero = .error .indexError ∧
    ∀ d1 d2 : KmlDoc,
      mainRun (lit "2021") (envC3two d1 d2) = mainRun (lit "2021") (envC3one d1) :=
  ⟨rfl, fun _ _ => rfl⟩

/-- C3 witness: the amended theorem applied to the concrete documents. -/
theorem c3_amended_extraction_witness :
    mainRun (lit "2021") envC3zero = .error .indexError ∧
    mainRun (lit "2021") (envC3two trackDocC6 altTrackDocC3) =
      mainRun (lit "2021") (envC3one trackDocC6) :=
  ⟨c3_amended_extraction.1, c3_amended_extraction.2 trackDocC6 altTrackDocC3⟩

/-! ## C7: resolver selection and target-name positions -/

theorem processHref_not_selected (year ff : Str)
    (h : (hasSubstr kmzMark ff && hasSubstr year ff) = false) :
    processHref year ff = .ok [] := by
  simp [processHref, h, pure, Except.pure]

theorem processHref_selected_markers (year ff : Str) (l : List Str)
    (hok : processHref year ff = .ok l) (hne : l ≠ []) :
    hasSubstr kmzMark ff = true ∧ hasSubstr year ff = true := by
  cases hb : (hasSubstr kmzMark ff && hasSubstr year ff) with
  | false =>
    rw [processHref_not_selected year ff hb] at hok
    cases hok
    exact absurd rfl hne
  | true => rw [Bool.and_eq_true] at hb; exact hb

theorem processHref_cone_name (year ff nm : Str) (l : List Str)
    (h1 : hasSubstr kmzMark ff = true) (h2 : hasSubstr year ff = true)
    (hc : hasSubstr coneLatestMark ff = true)
    (hg : (splitOnNE '/' [] ff).get? 3 = some nm)
    (hok : processHref year ff = .ok l) : nm ∈ l := by
  have hg1 : ∃ x, (splitOnNE '/' [] ff).get? 1 = some x := by
    obtain ⟨hlt, -⟩ := List.get?_eq_some.mp hg
    exact ⟨(splitOnNE '/' [] ff).get ⟨1, by omega⟩, List.get?_eq_some.mpr ⟨by omega, rfl⟩⟩
  obtain ⟨x, hg1⟩ := hg1
  simp only [processHref, h1, h2, Bool.and_self, if_true, hc, pyIndex, hg, hg1] at hok
  cases hTL : hasSubstr trackLatestMark ff <;> cases hBT : hasSubstr bestTrackMark ff <;>
    simp only [hTL, hBT, if_true, if_false, Bool.false_eq_true, pyIndex, hg, hg1,
      Except.bind, pure, Except.pure] at hok <;>
    (cases hok; simp)

theorem processHref_track_name (year ff nm : Str) (l : List Str)
    (h1 : hasSubstr kmzMark ff = true) (h2 : hasSubstr year ff = true)
    (hc : hasSubstr trackLatestMark ff = true)
    (hg : (splitOnNE '/' [] ff).get? 3 = some nm)
    (hok : processHref year ff = .ok l) : nm ∈ l := by
  have hg1 : ∃ x, (splitOnNE '/' [] ff).get? 1 = some x := by
    obtain ⟨hlt, -⟩ := List.get?_eq_some.mp hg
    exact ⟨(splitOnNE '/' [] ff).get ⟨1, by omega⟩, List.get?_eq_some.mpr ⟨by omega, rfl⟩⟩
  obtain ⟨x, hg1⟩ := hg1
  simp only [processHref, h1, h2, Bool.and_self, if_true, hc, pyIndex, hg, hg1] at hok
  cases hCL : hasSubstr coneLatestMark ff <;> cases hBT : hasSubstr bestTrackMark ff <;>
    simp only [hCL, hBT, if_true, if_false, Bool.false_eq_true, pyIndex, hg, hg1,
      Except.bind, pure, Except.pure] at hok <;>
    (cases hok; simp)

theorem processHref_best_name (year ff nm : Str) (l : List Str)
    (h1 : hasSubstr kmzMark ff = true) (h2 : hasSubstr year ff = true)
    (hc : hasSubstr bestTrackMark ff = true)
    (hg : (splitOnNE '/' [] ff).get? 1 = some nm)
    (hok : processHref year ff = .ok l) : nm ∈ l := by
  simp only [processHref, h1, h2, Bool.and_self, if_true, hc, pyIndex, hg] at hok
  cases hCL : hasSubstr coneLatestMark ff <;> cases hTL : hasSubstr trackLatestMark ff <;>
    simp only [hCL, hTL, if_true, if_false, Bool.false_eq_true, pyIndex, hg,
      Except.bind, pure, Except.pure] at hok
  · cases hok; simp
  · cases hg3 : (splitOnNE '/' [] ff).get? 3 <;> simp only [hg3] at hok
    · cases hok
    · cases hok; simp
  · cases hg3 : (splitOnNE '/' [] ff).get? 3 <;> simp only [hg3] at hok
    · cases hok
    · cases hok; simp
  · cases hg3 : (splitOnNE '/' [] ff).get? 3 <;> simp only [hg3] at hok
    · cases hok
    · cases hok; simp

theorem download_no_match (year : Str) :
    ∀ hrefs : List Str,
      (∀ ff ∈ hrefs, (hasSubstr kmzMark ff && hasSubstr year ff) = false) →
      download_current_kmz year hrefs = .ok [] := by
  intro hrefs
  induction hrefs with
  | nil => intro _; rfl
  | cons ff rest ih =>
    intro h
    have h0 := processHref_not_selected year ff (h ff (by simp))
    have h1 := ih (fun f hf => h f (by simp [hf]))
    simp only [download_current_kmz, h0, h1, Except.bind, bind, pure, Except.pure,
      List.nil_append]

/-- C7: an entry of the remote listing is selected only if its href contains
both the archive-file marker `kmz` and the reference year; a selected cone or
track entry downloads to the name `ff.split('/')[3]` (the segment after the
third path separator), a selected best-track entry to `ff.split('/')[1]` (the
segment after the first); and a listing with no selected entry makes the
resolver return successfully with no downloads (zero matches in a bucket is
not an error). -/
theorem c7_resolver_selection :
    (∀ year ff : Str, (hasSubstr kmzMark ff && hasSubstr year ff) = false →
      processHref year ff = .ok []) ∧
    (∀ year ff : Str, ∀ l : List Str, processHref year ff = .ok l → l ≠ [] →
      hasSubstr kmzMark ff = true ∧ hasSubstr year ff = true) ∧
    (∀ year ff nm : Str, ∀ l : List Str,
      hasSubstr kmzMark ff = true → hasSubstr year ff = true →
      hasSubstr coneLatestMark ff = true →
      (splitOnNE '/' [] ff).get? 3 = some nm →
      processHref year ff = .ok l → nm ∈ l) ∧
    (∀ year ff nm : Str, ∀ l : List Str,
      hasSubstr kmzMark ff = true → hasSubstr year ff = true →
      hasSubstr trackLatestMark ff = true →
      (splitOnNE '/' [] ff).get? 3 = some nm →
      processHref year ff = .ok l → nm ∈ l) ∧
    (∀ year ff nm : Str, ∀ l : List Str,
      hasSubstr kmzMark ff = true → hasSubstr year ff = true →
      hasSubstr bestTrackMark ff = true →
      (splitOnNE '/' [] ff).get? 1 = some nm →
      processHref year ff = .ok l → nm ∈ l) ∧
    (∀ year : Str, ∀ hrefs : List Str,
      (∀ ff ∈ hrefs, (hasSubstr kmzMark ff && hasSubstr year ff) = false) →
      download_current_kmz year hrefs = .ok []) :=
  ⟨processHref_not_selected,
   processHref_selected_markers,
   fun year ff nm l h1 h2 hc hg hok => processHref_cone_name year ff nm l h1 h2 hc hg hok,
   fun year ff nm l h1 h2 hc hg hok => processHref_track_name year ff nm l h1 h2 hc hg hok,
   fun year ff nm l h1 h2 hc hg hok => processHref_best_name year ff nm l h1 h2 hc hg hok,
   download_no_match⟩

/-- C7 witness: the theorem applied to the concrete 2021 listing entries. -/
theorem c7_resolver_selection_witness :
    processHref (lit "2021") (lit "nokmzhere") = .ok [] ∧
    (lit "AL052021_5day_CONE_latest.kmz") ∈
      [lit "AL052021_5day_CONE_latest.kmz"] ∧
    (lit "AL052021_best_track.kmz") ∈ [lit "AL052021_best_track.kmz"] ∧
    download_current_kmz (lit "2021") [lit "plain.txt"] = .ok [] := by
  refine ⟨c7_resolver_selection.1 (lit "2021") (lit "nokmzhere") (by decide), ?_, ?_,
    c7_resolver_selection.2.2.2.2.2 (lit "2021") [lit "plain.txt"] (by decide)⟩
  · exact c7_resolver_selection.2.2.1 (lit "2021") hrefConeC6
      (lit "AL052021_5day_CONE_latest.kmz") [lit "AL052021_5day_CONE_latest.kmz"]
      (by decide) (by decide) (by decide) (by decide) rfl
  · exact c7_resolver_selection.2.2.2.2.1 (lit "2021") hrefBestC6
      (lit "AL052021_best_track.kmz") [lit "AL052021_best_track.kmz"]
      (by decide) (by decide) (by decide) (by decide) rfl

/-! ## C5: per-point parsing — first two fields only, malformed text fails -/

theorem parseLonLat_first_two (a b extra : Str)
    (ha : hasSubstr [','] a = false) (hb : hasSubstr [','] b = false) :
    parseLonLat (a ++ [','] ++ (b ++ [','] ++ extra)) = parseLonLat (a ++ [','] ++ b) := by
  have ha' : hasSubstr (',' :: ([] : Str)) (a ++ (',' :: ([] : Str)).dropLast) = false := by
    simpa using ha
  have hb' : hasSubstr (',' :: ([] : Str)) (b ++ (',' :: ([] : Str)).dropLast) = false := by
    simpa using hb
  have h1 : splitOnNE ',' [] (a ++ (',' :: []) ++ (b ++ (',' :: []) ++ extra)) =
      a :: splitOnNE ',' [] (b ++ (',' :: []) ++ extra) :=
    splitOnNE_append ',' [] a _ ha'
  have h2 : splitOnNE ',' [] (b ++ (',' :: []) ++ extra) = b :: splitOnNE ',' [] extra :=
    splitOnNE_append ',' [] b extra hb'
  have h3 : splitOnNE ',' [] (a ++ (',' :: []) ++ b) = a :: splitOnNE ',' [] b :=
    splitOnNE_append ',' [] a b ha'
  have h4 : splitOnNE ',' [] b = [b] := splitOnNE_no_occ ',' [] b hb
  simp only [parseLonLat, h1, h2, h3, h4, pyIndex, List.get?]

theorem coneInner_error :
    ∀ (pieces : List Str) (st : Str), st ∈ pieces →
      ∀ err : PyErr, parseLonLat st = .error err →
      ∀ g : Geo, ∃ e2, coneInner pieces g = .error e2 := by
  intro pieces
  induction pieces with
  | nil => intro st hst; cases hst
  | cons p rest ih =>
    intro st hst err he g
    rcases List.mem_cons.mp hst with h | h
    · subst h
      exact ⟨err, by simp [coneInner, he, bind, Except.bind]⟩
    · cases hp : parseLonLat p with
      | error e' => exact ⟨e', by simp [coneInner, hp, bind, Except.bind]⟩
      | ok v =>
        obtain ⟨e2, h2⟩ := ih st h err he ⟨g.lon ++ [v.1], g.lat ++ [v.2]⟩
        exact ⟨e2, by simp [coneInner, hp, bind, Except.bind, h2]⟩

theorem coneOuter_error :
    ∀ (elems : List Elem) (e : Elem), e ∈ elems →
      ∀ st : Str,
        st ∈ ((splitOnNE ',' (lit "0") (getText coordWord e)).drop 1).dropLast →
      ∀ err : PyErr, parseLonLat st = .error err →
      ∀ g : Geo, ∃ e2, coneOuter elems g = .error e2 := by
  intro elems
  induction elems with
  | nil => intro e he; cases he
  | cons e0 rest ih =>
    intro e he st hst err herr g
    rcases List.mem_cons.mp he with h | h
    · subst h
      obtain ⟨e2, h2⟩ := coneInner_error _ st hst err herr g
      rw [List.drop_one] at h2
      exact ⟨e2, by simp [coneOuter, h2, bind, Except.bind]⟩
    · cases hinner : coneInner ((splitOnNE ',' (lit "0")
          (getText coordWord e0)).tail).dropLast g with
      | error e' => exact ⟨e', by simp [coneOuter, hinner, bind, Except.bind]⟩
      | ok g2 =>
        obtain ⟨e2, h2⟩ := ih e h st hst err herr g2
        exact ⟨e2, by simp [coneOuter, hinner, bind, Except.bind, h2]⟩

theorem trackLoop_error :
    ∀ (elems : List Elem) (e : Elem), e ∈ elems →
      ∀ st : Str,
        pyIndex (splitOnNE 'c' (lit "oordinates") (getText coordWord e)) 1 = .ok st →
      ∀ err : PyErr, parseLonLat st = .error err →
      ∀ g : Geo, ∃ e2, trackLoop elems g = .error e2 := by
  intro elems
  induction elems with
  | nil => intro e he; cases he
  | cons e0 rest ih =>
    intro e he st hst err herr g
    rcases List.mem_cons.mp he with h | h
    · subst h
      exact ⟨err, by simp [trackLoop, hst, herr, bind, Except.bind]⟩
    · cases hidx : pyIndex (splitOnNE 'c' (lit "oordinates") (getText coordWord e0)) 1 with
      | error e' => exact ⟨e', by simp [trackLoop, hidx, bind, Except.bind]⟩
      | ok st0 =>
        cases hp : parseLonLat st0 with
        | error e' => exact ⟨e', by simp [trackLoop, hidx, hp, bind, Except.bind]⟩
        | ok v =>
          obtain ⟨e2, h2⟩ := ih e h st hst err herr ⟨g.lon ++ [v.1], g.lat ++ [v.2]⟩
          exact ⟨e2, by simp [trackLoop, hidx, hp, bind, Except.bind, h2]⟩

/-- C5: both geometry extractors parse only the first two comma-separated
fields of a coordinate text — appending further fields (for example an
altitude), or omitting them, does not change the parse — and a document
containing a coordinate whose first or second field is not valid numeric text
makes the extractor fail with a parse error instead of skipping the offending
element and returning a partial sequence. -/
theorem c5_parser_tolerance_and_failure :
    (∀ a b extra : Str, hasSubstr [','] a = false → hasSubstr [','] b = false →
      parseLonLat (a ++ [','] ++ (b ++ [','] ++ extra)) =
        parseLonLat (a ++ [','] ++ b)) ∧
    (∀ (doc : KmlDoc) (e : Elem), e ∈ doc.coordinatesElems →
      ∀ st : Str,
        st ∈ ((splitOnNE ',' (lit "0") (getText coordWord e)).drop 1).dropLast →
      ∀ err : PyErr, parseLonLat st = .error err →
      ∃ e2, get_cone_coordinates doc = .error e2) ∧
    (∀ (doc : KmlDoc) (e : Elem), e ∈ doc.pointElems →
      ∀ st : Str,
        pyIndex (splitOnNE 'c' (lit "oordinates") (getText coordWord e)) 1 = .ok st →
      ∀ err : PyErr, parseLonLat st = .error err →
      ∃ e2, get_track_coordinates doc = .error e2) :=
  ⟨parseLonLat_first_two,
   fun doc e he st hst err herr => coneOuter_error doc.coordinatesElems e he st hst err herr _,
   fun doc e he st hst err herr => trackLoop_error doc.pointElems e he st hst err herr _⟩

/-- A cone document whose second ring point has the malformed field `x`. -/
def badConeDocC5 : KmlDoc := ⟨[[lit "1,2,0 x,3,0 4,5,0"]], []⟩
/-- A track document whose single point has the malformed field `y`. -/
def badTrackDocC5 : KmlDoc := ⟨[], [[[], lit "y,7,0"]]⟩

/-- C5 witness: the theorem applied to concrete degenerate and malformed
coordinate texts. -/
theorem c5_parser_tolerance_and_failure_witness :
    parseLonLat (lit "1" ++ [','] ++ (lit "2" ++ [','] ++ lit "0")) =
      parseLonLat (lit "1" ++ [','] ++ lit "2") ∧
    (∃ e2, get_cone_coordinates badConeDocC5 = .error e2) ∧
    (∃ e2, get_track_coordinates badTrackDocC5 = .error e2) := by
  refine ⟨c5_parser_tolerance_and_failure.1 (lit "1") (lit "2") (lit "0")
      (by decide) (by decide), ?_, ?_⟩
  · exact c5_parser_tolerance_and_failure.2.1 badConeDocC5 [lit "1,2,0 x,3,0 4,5,0"]
      (by simp [badConeDocC5]) (lit " x,3") (by decide)
      (.valueError (lit " x")) rfl
  · exact c5_parser_tolerance_and_failure.2.2 badTrackDocC5 [[], lit "y,7,0"]
      (by simp [badTrackDocC5]) (lit "y,7,0") rfl
      (.valueError (lit "y")) rfl

/-! ## C4: ring boundary discard in `get_cone_coordinates` -/

/-- The coordinate text of a ring whose points (each a `lon,lat` string) are
written in the standard advisory form `P0,0 P1,0 ... Pn,0`: every point is
followed by the altitude marker `,0`, points separated by one space. -/
def ringText (r : List Str) : Str := List.intercalate (lit ",0 ") r ++ lit ",0"

theorem intercalate_single (s x : Str) : List.intercalate s [x] = x := by
  simp [List.intercalate]

theorem intercalate_cons₂ (s x y : Str) (xs : List Str) :
    List.intercalate s (x :: y :: xs) = x ++ s ++ List.intercalate s (y :: xs) := by
  simp [List.intercalate, List.append_assoc]

theorem ringText_cons₂ (p q : Str) (qs : List Str) :
    ringText (p :: q :: qs) = p ++ (',' :: lit "0") ++ (' ' :: ringText (q :: qs)) := by
  simp only [ringText, intercalate_cons₂, List.append_assoc]
  rfl

theorem ringText_split :
    ∀ (ps : List Str) (p : Str),
      (∀ pt ∈ p :: ps, hasSubstr (',' :: lit "0") (pt ++ [',']) = false) →
      splitOnNE ',' (lit "0") (ringText (p :: ps)) =
        p :: (ps.map (fun q => ' ' :: q) ++ [[]]) := by
  intro ps
  induction ps with
  | nil =>
    intro p hok
    have hp := hok p (by simp)
    have hp' : hasSubstr (',' :: lit "0") (p ++ (',' :: lit "0").dropLast) = false := hp
    have h1 : splitOnNE ',' (lit "0") (p ++ (',' :: lit "0") ++ []) =
        p :: splitOnNE ',' (lit "0") [] := splitOnNE_append ',' (lit "0") p [] hp'
    have h2 : ringText [p] = p ++ (',' :: lit "0") ++ [] := by
      simp [ringText, intercalate_single]
      rfl
    rw [h2, h1, splitOnNE_nil]
    rfl
  | cons q qs ih =>
    intro p hok
    have hp := hok p (by simp)
    have hp' : hasSubstr (',' :: lit "0") (p ++ (',' :: lit "0").dropLast) = false := hp
    rw [ringText_cons₂,
        splitOnNE_append ',' (lit "0") p (' ' :: ringText (q :: qs)) hp']
    have hnpfx : hasPrefixL (',' :: lit "0") (' ' :: ringText (q :: qs)) = false := by
      simp [hasPrefixL, lit]
    have hrec := ih q (fun pt hpt => hok pt (by simp at hpt ⊢; tauto))
    rw [splitOnNE_cons_neg ',' (lit "0") ' ' (ringText (q :: qs)) hnpfx _ _ hrec]
    simp

theorem coneInner_ok :
    ∀ (pieces : List Str) (ps : List (DecNum × DecNum)) (g : Geo),
      List.Forall₂ (fun st p => parseLonLat st = .ok p) pieces ps →
      coneInner pieces g = .ok ⟨g.lon ++ ps.map Prod.fst, g.lat ++ ps.map Prod.snd⟩ := by
  intro pieces ps g h
  induction h generalizing g with
  | nil => simp [coneInner]
  | cons hst hrest ih =>
    rename_i st p pieces' ps'
    simp only [coneInner, hst, bind, Except.bind]
    rw [ih ⟨g.lon ++ [p.1], g.lat ++ [p.2]⟩]
    simp [List.append_assoc]

theorem coneOuter_rings_ok :
    ∀ (rings : List (List Str)) (ptss : List (List (DecNum × DecNum))) (g : Geo),
      (∀ r ∈ rings, r ≠ []) →
      (∀ r ∈ rings, ∀ pt ∈ r, hasSubstr (',' :: lit "0") (pt ++ [',']) = false) →
      List.Forall₂ (fun r ps => List.Forall₂
        (fun pt p => parseLonLat (' ' :: pt) = .ok p) (r.drop 1) ps) rings ptss →
      coneOuter (rings.map (fun r => [ringText r])) g =
        .ok ⟨g.lon ++ (ptss.flatten).map Prod.fst, g.lat ++ (ptss.flatten).map Prod.snd⟩ := by
  intro rings ptss g hne hok h
  induction h generalizing g with
  | nil => simp [coneOuter]
  | cons hr hrest ih =>
    rename_i r ps rings' ptss'
    obtain ⟨p, ps0, rfl⟩ : ∃ p ps0, r = p :: ps0 := by
      cases r with
      | nil => exact absurd rfl (hne [] (by simp))
      | cons p ps0 => exact ⟨p, ps0, rfl⟩
    have hsplit := ringText_split ps0 p (hok _ (by simp))
    have htext : getText coordWord [ringText (p :: ps0)] = ringText (p :: ps0) :=
      intercalate_single _ _
    simp only [coneOuter, List.map_cons, htext, hsplit, List.drop_one, List.tail_cons,
      List.dropLast_concat, bind, Except.bind]
    have hinner : List.Forall₂ (fun st q => parseLonLat st = .ok q)
        (ps0.map (fun q => ' ' :: q)) ps := by
      rw [List.forall₂_map_left_iff]
      simpa using hr
    rw [coneInner_ok _ _ g hinner]
    have ih2 := ih ⟨g.lon ++ ps.map Prod.fst, g.lat ++ ps.map Prod.snd⟩
      (fun r2 h2 => hne r2 (List.mem_cons_of_mem _ h2))
      (fun r2 h2 => hok r2 (List.mem_cons_of_mem _ h2))
    simp [ih2, List.append_assoc]

/-- The concrete three-point ring `P0=(1,2) P1=(3,4) P2=(5,6)` used to refute
the claim as stated. -/
def c4CounterDoc : KmlDoc := ⟨[[lit "1,2,0 3,4,0 5,6,0"]], []⟩

/-- C4 counterexample: on a ring with points `P0 P1 P2` the extractor emits
`P1` and `P2` — the last point is kept — not the claimed interior `P1` alone
(first and last dropped). -/
theorem c4_counterexample :
    get_cone_coordinates c4CounterDoc =
      .ok ⟨[⟨false,3,0⟩, ⟨false,5,0⟩], [⟨false,4,0⟩, ⟨false,6,0⟩]⟩ ∧
    (⟨[⟨false,3,0⟩, ⟨false,5,0⟩], [⟨false,4,0⟩, ⟨false,6,0⟩]⟩ : Geo) ≠
      ⟨[⟨false,3,0⟩], [⟨false,4,0⟩]⟩ :=
  ⟨rfl, by decide⟩

/-- C4 (amended): `get_cone_coordinates` visits every `<coordinates>` element
in document order and splits its text on the altitude marker `,0`; for a ring
written `P0,0 P1,0 ... Pn,0` the pieces are `P0, P1, ..., Pn` plus an empty
trailing piece, and the `[1:-1]` window drops the first point and the empty
trailer — so the ring contributes exactly `P1 ... Pn` (first dropped, last
kept), and a document with several rings yields exactly the concatenation of
those windows in ring order. -/
theorem c4_ring_window (rings : List (List Str)) (ptss : List (List (DecNum × DecNum)))
    (hne : ∀ r ∈ rings, r ≠ [])
    (hok : ∀ r ∈ rings, ∀ pt ∈ r, hasSubstr (',' :: lit "0") (pt ++ [',']) = false)
    (hparse : List.Forall₂ (fun r ps => List.Forall₂
      (fun pt p => parseLonLat (' ' :: pt) = .ok p) (r.drop 1) ps) rings ptss) :
    get_cone_coordinates ⟨rings.map (fun r => [ringText r]), []⟩ =
      .ok ⟨(ptss.flatten).map Prod.fst, (ptss.flatten).map Prod.snd⟩ := by
  have h := coneOuter_rings_ok rings ptss ⟨[], []⟩ hne hok hparse
  simpa [get_cone_coordinates] using h

/-- C4 witness: the amended theorem applied to two concrete rings. -/
theorem c4_ring_window_witness :
    get_cone_coordinates
        ⟨[[ringText [lit "1,2", lit "3,4", lit "5,6"]],
          [ringText [lit "7,8", lit "9,10"]]], []⟩ =
      .ok ⟨[⟨false,3,0⟩, ⟨false,5,0⟩, ⟨false,9,0⟩],
           [⟨false,4,0⟩, ⟨false,6,0⟩, ⟨false,10,0⟩]⟩ := by
  have h := c4_ring_window
    [[lit "1,2", lit "3,4", lit "5,6"], [lit "7,8", lit "9,10"]]
    [[(⟨false,3,0⟩, ⟨false,4,0⟩), (⟨false,5,0⟩, ⟨false,6,0⟩)],
     [(⟨false,9,0⟩, ⟨false,10,0⟩)]]
    (by decide) (by decide)
    (List.Forall₂.cons
      (List.Forall₂.cons rfl (List.Forall₂.cons rfl List.Forall₂.nil))
      (List.Forall₂.cons (List.Forall₂.cons rfl List.Forall₂.nil) List.Forall₂.nil))
  simpa using h

/-! ## Grid index mapper (`extent_ind` in
`scripts/maps/models/synchronous/rtofs-cmems.py` lines 123-134 and
`rtofs-gofs-cmems.py` lines 158-171)

`np.interp(x, xp, fp)` for an increasing axis `xp`: clamp to `fp.head` /
`fp.getLast` outside the axis range, linear interpolation between the two
bracketing grid points inside. -/

/-- `np.interp(x, xp, fp)` (scalar form). -/
def np_interp (x : ℚ) : List ℚ → List ℚ → ℚ
  | x0 :: x1 :: xr, f0 :: f1 :: fr =>
    if x ≤ x0 then f0
    else if x ≤ x1 then f0 + (f1 - f0) * (x - x0) / (x1 - x0)
    else np_interp x (x1 :: xr) (f1 :: fr)
  | [_], f0 :: _ => f0
  | _, _ => 0

/-- The source's grid index mapping (the spec's `map_extent_to_indices`):
`lons_ind = np.interp(extent[:2], grid_lons, grid_x)`,
`lats_ind = np.interp(extent[2:], grid_lats, grid_y)`, then
`[floor(lons_ind[0]), ceil(lons_ind[1]), floor(lats_ind[0]), ceil(lats_ind[1])]`
cast to int.  A total function: there is no error path. -/
def extent_ind (lon_min lon_max lat_min lat_max : ℚ)
    (grid_lons grid_x grid_lats grid_y : List ℚ) : List ℤ :=
  let li0 := np_interp lon_min grid_lons grid_x
  let li1 := np_interp lon_max grid_lons grid_x
  let ti0 := np_interp lat_min grid_lats grid_y
  let ti1 := np_interp lat_max grid_lats grid_y
  [⌊li0⌋, ⌈li1⌉, ⌊ti0⌋, ⌈ti1⌉]

/-- The integer index axis `[k, k+1, ..., k+n-1]` as rationals (the source's
`grid_x = rds.x.values`, an `arange`-style index coordinate). -/
def castRange (k n : ℕ) : List ℚ := (List.range' k n).map (fun i : ℕ => (i : ℚ))

theorem castRange_succ (k n : ℕ) : castRange k (n + 1) = (k : ℚ) :: castRange (k + 1) n := by
  simp [castRange, List.range'_succ]

theorem castRange_length (k n : ℕ) : (castRange k n).length = n := by
  rw [castRange, List.length_map, List.length_range']

theorem castRange_chain (k n : ℕ) : List.Chain' (· ≤ ·) (castRange k n) := by
  induction n generalizing k with
  | zero => simp [castRange]
  | succ m ih =>
    cases m with
    | zero => simp [castRange]
    | succ m' =>
      rw [castRange_succ]
      rw [castRange_succ]
      refine List.Chain'.cons (by push_cast; linarith) ?_
      rw [← castRange_succ]
      exact ih (k + 1)

theorem np_interp_ge_head :
    ∀ (xr : List ℚ) (x0 : ℚ) (f0 : ℚ) (fr : List ℚ) (x : ℚ),
      (x0 :: xr).length ≤ (f0 :: fr).length →
      List.Chain' (· < ·) (x0 :: xr) → List.Chain' (· ≤ ·) (f0 :: fr) →
      f0 ≤ np_interp x (x0 :: xr) (f0 :: fr) := by
  intro xr
  induction xr with
  | nil => intro x0 f0 fr x _ _ _; cases fr <;> simp [np_interp]
  | cons x1 xr' ih =>
    intro x0 f0 fr x hlen hx hf
    cases fr with
    | nil => simp at hlen
    | cons f1 fr' =>
      have hx01 : x0 < x1 := (List.chain'_cons.mp hx).1
      have hf01 : f0 ≤ f1 := (List.chain'_cons.mp hf).1
      simp only [np_interp]
      split
      · exact le_refl f0
      · split
        · rename_i h0 h1
          have hd : (0:ℚ) ≤ (f1 - f0) * (x - x0) / (x1 - x0) := by
            apply div_nonneg
            · apply mul_nonneg (by linarith) (by push_neg at h0; linarith)
            · linarith
          linarith
        · calc f0 ≤ f1 := hf01
            _ ≤ np_interp x (x1 :: xr') (f1 :: fr') :=
              ih x1 f1 fr' x (by simpa using hlen)
                (List.chain'_cons.mp hx).2 (List.chain'_cons.mp hf).2

theorem np_interp_mono :
    ∀ (xp fp : List ℚ) (x y : ℚ),
      xp.length ≤ fp.length →
      List.Chain' (· < ·) xp → List.Chain' (· ≤ ·) fp →
      x ≤ y → np_interp x xp fp ≤ np_interp y xp fp := by
  intro xp
  induction xp with
  | nil => intro fp x y _ _ _ _; cases fp <;> simp [np_interp]
  | cons x0 xr ih =>
    intro fp x y hlen hx hf hxy
    cases xr with
    | nil => cases fp with
      | nil => simp [np_interp]
      | cons f0 fr => simp [np_interp]
    | cons x1 xr' =>
      cases fp with
      | nil => simp at hlen
      | cons f0 fr =>
        cases fr with
        | nil => simp at hlen
        | cons f1 fr' =>
          have hx01 : x0 < x1 := (List.chain'_cons.mp hx).1
          have hf01 : f0 ≤ f1 := (List.chain'_cons.mp hf).1
          have hxtl := (List.chain'_cons.mp hx).2
          have hftl := (List.chain'_cons.mp hf).2
          have hlen' : (x1 :: xr').length ≤ (f1 :: fr').length := by simpa using hlen
          have hslope : ∀ z, x0 < z → z ≤ x1 →
              f0 + (f1 - f0) * (z - x0) / (x1 - x0) ≤ f1 := by
            intro z h0 h1
            have hr : (z - x0) / (x1 - x0) ≤ 1 := by
              rw [div_le_one (by linarith)]; linarith
            have : (f1 - f0) * ((z - x0) / (x1 - x0)) ≤ (f1 - f0) * 1 :=
              mul_le_mul_of_nonneg_left hr (by linarith)
            rw [mul_div_assoc]
            linarith
          have hge : ∀ z, x1 < z →
              f1 ≤ np_interp z (x1 :: xr') (f1 :: fr') := by
            intro z _
            exact np_interp_ge_head xr' x1 f1 fr' z hlen' hxtl hftl
          simp only [np_interp]
          split
          · rename_i h0
            have h0y : (if y ≤ x0 then f0
                else if y ≤ x1 then f0 + (f1 - f0) * (y - x0) / (x1 - x0)
                else np_interp y (x1 :: xr') (f1 :: fr')) ≥ f0 := by
              split
              · exact le_refl f0
              · split
                · rename_i hy0 hy1
                  have hd : (0:ℚ) ≤ (f1 - f0) * (y - x0) / (x1 - x0) := by
                    apply div_nonneg
                    · apply mul_nonneg (by linarith) (by push_neg at hy0; linarith)
                    · linarith
                  linarith
                · rename_i hy0 hy1
                  push_neg at hy1
                  calc f0 ≤ f1 := hf01
                    _ ≤ _ := hge y hy1
            exact h0y
          · rename_i h0
            push_neg at h0
            have hy0 : ¬ (y ≤ x0) := by push_neg; linarith
            simp only [hy0, if_false]
            split
            · rename_i h1
              split
              · rename_i hy1
                have hnum : (f1 - f0) * (x - x0) ≤ (f1 - f0) * (y - x0) :=
                  mul_le_mul_of_nonneg_left (by linarith) (by linarith)
                have hden : (0:ℚ) < x1 - x0 := by linarith
                have hdiv := div_le_div_of_nonneg_right hnum hden.le
                linarith
              · rename_i hy1
                push_neg at hy1
                calc f0 + (f1 - f0) * (x - x0) / (x1 - x0) ≤ f1 := hslope x h0 h1
                  _ ≤ _ := hge y hy1
            · rename_i h1
              push_neg at h1
              have hy1 : ¬ (y ≤ x1) := by push_neg; linarith
              simp only [hy1, if_false]
              exact ih (f1 :: fr') x y hlen' hxtl hftl hxy

theorem np_interp_floor_cover :
    ∀ (xr : List ℚ) (x0 : ℚ) (k : ℕ) (x : ℚ),
      List.Chain' (· < ·) (x0 :: xr) → x0 ≤ x →
      ∃ i : ℕ, i < (x0 :: xr).length ∧
        ⌊np_interp x (x0 :: xr) (castRange k (x0 :: xr).length)⌋ = ((k + i : ℕ) : ℤ) ∧
        ∃ a, (x0 :: xr).get? i = some a ∧ a ≤ x := by
  intro xr
  induction xr with
  | nil =>
    intro x0 k x _ hx
    refine ⟨0, by simp, ?_, x0, rfl, hx⟩
    have h1 : castRange k 1 = [(k : ℚ)] := by
      rw [castRange_succ]; rfl
    simp [h1, np_interp, Int.floor_natCast]
  | cons x1 xr' ih =>
    intro x0 k x hchain hx
    have hx01 : x0 < x1 := (List.chain'_cons.mp hchain).1
    have hlen : (x0 :: x1 :: xr').length = xr'.length + 2 := by simp
    have hcr : castRange k (xr'.length + 2) =
        (k : ℚ) :: castRange (k + 1) (xr'.length + 1) := castRange_succ _ _
    have hcr2 : castRange (k + 1) (xr'.length + 1) =
        ((k + 1 : ℕ) : ℚ) :: castRange (k + 2) xr'.length := castRange_succ _ _
    rw [hlen, hcr, hcr2]
    by_cases hx0 : x ≤ x0
    · have hxx0 : x = x0 := le_antisymm hx0 hx
      refine ⟨0, by simp, ?_, x0, rfl, le_refl _ |>.trans (hxx0 ▸ le_refl x)⟩
      simp [np_interp, hx0, Int.floor_natCast]
    · push_neg at hx0
      by_cases hx1 : x ≤ x1
      · rcases lt_or_eq_of_le hx1 with hlt | heq
        · -- x strictly between x0 and x1 : fractional part in [0,1), floor is k
          refine ⟨0, by simp, ?_, x0, rfl, hx⟩
          have hval : np_interp x (x0 :: x1 :: xr')
              ((k : ℚ) :: ((k + 1 : ℕ) : ℚ) :: castRange (k + 2) xr'.length) =
              (k : ℚ) + (((k + 1 : ℕ) : ℚ) - (k : ℚ)) * (x - x0) / (x1 - x0) := by
            simp [np_interp, hx1, not_le.mpr hx0]
          rw [hval]
          have hone : ((k + 1 : ℕ) : ℚ) - (k : ℚ) = 1 := by push_cast; ring
          rw [hone, one_mul]
          have hr0 : (0:ℚ) ≤ (x - x0) / (x1 - x0) :=
            div_nonneg (by linarith) (by linarith)
          have hr1 : (x - x0) / (x1 - x0) < 1 := by
            rw [div_lt_one (by linarith)]; linarith
          have hfl0 : ⌊(x - x0) / (x1 - x0)⌋ = 0 :=
            Int.floor_eq_zero_iff.mpr ⟨hr0, hr1⟩
          have hcast : (k : ℚ) = ((k : ℤ) : ℚ) := by push_cast; ring
          rw [add_comm, hcast, Int.floor_add_int, hfl0]
          push_cast
          ring
        · -- x = x1 exactly : the fractional index is exactly k+1
          refine ⟨1, by simp, ?_, x1, rfl, le_of_eq heq.symm⟩
          have hval : np_interp x (x0 :: x1 :: xr')
              ((k : ℚ) :: ((k + 1 : ℕ) : ℚ) :: castRange (k + 2) xr'.length) =
              (k : ℚ) + (((k + 1 : ℕ) : ℚ) - (k : ℚ)) * (x - x0) / (x1 - x0) := by
            simp [np_interp, hx1, not_le.mpr hx0]
          rw [hval]
          have hone : ((k + 1 : ℕ) : ℚ) - (k : ℚ) = 1 := by push_cast; ring
          rw [hone, one_mul, heq, div_self (by linarith : x1 - x0 ≠ 0)]
          have : (k : ℚ) + 1 = ((k + 1 : ℕ) : ℚ) := by push_cast; ring
          rw [this, Int.floor_natCast]
      · -- x beyond x1 : recurse into the tail axis
        push_neg at hx1
        obtain ⟨i, hi, hfl, a, ha, hax⟩ :=
          ih x1 (k + 1) x (List.chain'_cons.mp hchain).2 hx1.le
        refine ⟨i + 1, by simpa using Nat.succ_lt_succ hi, ?_, a, by simpa using ha, hax⟩
        have hstep : np_interp x (x0 :: x1 :: xr')
            ((k : ℚ) :: ((k + 1 : ℕ) : ℚ) :: castRange (k + 2) xr'.length) =
            np_interp x (x1 :: xr')
              (((k + 1 : ℕ) : ℚ) :: castRange (k + 2) xr'.length) := by
          simp [np_interp, not_le.mpr hx0, not_le.mpr hx1]
        rw [hstep]
        have hlen' : (x1 :: xr').length = xr'.length + 1 := by simp
        have : castRange (k + 1) (xr'.length + 1) =
            ((k + 1 : ℕ) : ℚ) :: castRange (k + 2) xr'.length := castRange_succ _ _
        rw [← this, ← hlen']
        rw [hfl]
        push_cast
        ring

theorem np_interp_ceil_cover :
    ∀ (xr : List ℚ) (x0 : ℚ) (k : ℕ) (x : ℚ),
      List.Chain' (· < ·) (x0 :: xr) → x ≤ (x0 :: xr).getLast (by simp) →
      ∃ i : ℕ, i < (x0 :: xr).length ∧
        ⌈np_interp x (x0 :: xr) (castRange k (x0 :: xr).length)⌉ = ((k + i : ℕ) : ℤ) ∧
        ∃ a, (x0 :: xr).get? i = some a ∧ x ≤ a := by
  intro xr
  induction xr with
  | nil =>
    intro x0 k x _ hx
    refine ⟨0, by simp, ?_, x0, rfl, by simpa using hx⟩
    have h1 : castRange k 1 = [(k : ℚ)] := by
      rw [castRange_succ]; rfl
    simp [h1, np_interp, Int.ceil_natCast]
  | cons x1 xr' ih =>
    intro x0 k x hchain hx
    have hx01 : x0 < x1 := (List.chain'_cons.mp hchain).1
    have hlen : (x0 :: x1 :: xr').length = xr'.length + 2 := by simp
    have hcr : castRange k (xr'.length + 2) =
        (k : ℚ) :: castRange (k + 1) (xr'.length + 1) := castRange_succ _ _
    have hcr2 : castRange (k + 1) (xr'.length + 1) =
        ((k + 1 : ℕ) : ℚ) :: castRange (k + 2) xr'.length := castRange_succ _ _
    rw [hlen, hcr, hcr2]
    by_cases hx0 : x ≤ x0
    · refine ⟨0, by simp, ?_, x0, rfl, hx0⟩
      simp [np_interp, hx0, Int.ceil_natCast]
    · push_neg at hx0
      by_cases hx1 : x ≤ x1
      · -- x in (x0, x1] : fractional index in (k, k+1], ceil is k+1
        refine ⟨1, by simp, ?_, x1, rfl, hx1⟩
        have hval : np_interp x (x0 :: x1 :: xr')
            ((k : ℚ) :: ((k + 1 : ℕ) : ℚ) :: castRange (k + 2) xr'.length) =
            (k : ℚ) + (((k + 1 : ℕ) : ℚ) - (k : ℚ)) * (x - x0) / (x1 - x0) := by
          simp [np_interp, hx1, not_le.mpr hx0]
        rw [hval]
        have hone : ((k + 1 : ℕ) : ℚ) - (k : ℚ) = 1 := by push_cast; ring
        rw [hone, one_mul]
        have hr0 : (0:ℚ) < (x - x0) / (x1 - x0) :=
          div_pos (by linarith) (by linarith)
        have hr1 : (x - x0) / (x1 - x0) ≤ 1 := by
          rw [div_le_one (by linarith)]; linarith
        rw [Int.ceil_eq_iff]
        constructor
        · push_cast; linarith
        · push_cast; linarith
      · push_neg at hx1
        have hlast : (x0 :: x1 :: xr').getLast (by simp) =
            (x1 :: xr').getLast (by simp) := by
          simp [List.getLast_cons]
        obtain ⟨i, hi, hfl, a, ha, hax⟩ :=
          ih x1 (k + 1) x (List.chain'_cons.mp hchain).2 (by rw [← hlast]; exact hx)
        refine ⟨i + 1, by simpa using Nat.succ_lt_succ hi, ?_, a, by simpa using ha, hax⟩
        have hstep : np_interp x (x0 :: x1 :: xr')
            ((k : ℚ) :: ((k + 1 : ℕ) : ℚ) :: castRange (k + 2) xr'.length) =
            np_interp x (x1 :: xr')
              (((k + 1 : ℕ) : ℚ) :: castRange (k + 2) xr'.length) := by
          simp [np_interp, not_le.mpr hx0, not_le.mpr hx1]
        rw [hstep]
        have hlen' : (x1 :: xr').length = xr'.length + 1 := by simp
        have hc : castRange (k + 1) (xr'.length + 1) =
            ((k + 1 : ℕ) : ℚ) :: castRange (k + 2) xr'.length := castRange_succ _ _
        rw [← hc, ← hlen']
        rw [hfl]
        push_cast
        ring

/-- C1: for strictly increasing grid axes with their integer index axes, and a
bounding box strictly inside each axis's coordinate range, the grid index
mapping (linear interpolation of the box bounds against the
coordinate-to-index mapping, `floor` of the lower fractional index, `ceil` of
the upper) yields an inclusive index range on each axis whose axis coordinate
values form a superset of the requested box: the lower index's coordinate is
`≤` the box minimum and the upper index's coordinate is `≥` the box maximum,
with valid indices and `min_index ≤ max_index`. -/
theorem c1_grid_index_coverage
    (lon_min lon_max lat_min lat_max : ℚ) (glons glats : List ℚ) (la lb ma mb : ℚ)
    (hlon : List.Chain' (· < ·) glons) (hlat : List.Chain' (· < ·) glats)
    (hlh : glons.head? = some la) (hll : glons.getLast? = some lb)
    (hth : glats.head? = some ma) (htl : glats.getLast? = some mb)
    (hbox1 : lon_min ≤ lon_max) (hbox2 : lat_min ≤ lat_max)
    (h1 : la < lon_min) (h2 : lon_max < lb) (h3 : ma < lat_min) (h4 : lat_max < mb) :
    ∃ (i1 i2 i3 i4 : ℕ) (a1 a2 b1 b2 : ℚ),
      extent_ind lon_min lon_max lat_min lat_max
          glons (castRange 0 glons.length) glats (castRange 0 glats.length) =
        [(i1 : ℤ), (i2 : ℤ), (i3 : ℤ), (i4 : ℤ)] ∧
      glons.get? i1 = some a1 ∧ glons.get? i2 = some a2 ∧
      glats.get? i3 = some b1 ∧ glats.get? i4 = some b2 ∧
      a1 ≤ lon_min ∧ lon_max ≤ a2 ∧ b1 ≤ lat_min ∧ lat_max ≤ b2 ∧
      i1 ≤ i2 ∧ i3 ≤ i4 := by
  cases glons with
  | nil => cases hlh
  | cons u ur =>
  cases glats with
  | nil => cases hth
  | cons v vr =>
  have hla : la = u := by simpa using hlh.symm
  have hma : ma = v := by simpa using hth.symm
  have hlb : lb = (u :: ur).getLast (by simp) := by
    have := List.getLast?_eq_getLast (u :: ur) (by simp)
    rw [this] at hll
    simpa using hll.symm
  have hmb : mb = (v :: vr).getLast (by simp) := by
    have := List.getLast?_eq_getLast (v :: vr) (by simp)
    rw [this] at htl
    simpa using htl.symm
  obtain ⟨i1, hi1, hf1, a1, ha1, ha1x⟩ :=
    np_interp_floor_cover ur u 0 lon_min hlon (by rw [← hla]; exact h1.le)
  obtain ⟨i2, hi2, hf2, a2, ha2, ha2x⟩ :=
    np_interp_ceil_cover ur u 0 lon_max hlon (by rw [← hlb]; exact h2.le)
  obtain ⟨i3, hi3, hf3, b1, hb1, hb1x⟩ :=
    np_interp_floor_cover vr v 0 lat_min hlat (by rw [← hma]; exact h3.le)
  obtain ⟨i4, hi4, hf4, b2, hb2, hb2x⟩ :=
    np_interp_ceil_cover vr v 0 lat_max hlat (by rw [← hmb]; exact h4.le)
  simp only [Nat.zero_add] at hf1 hf2 hf3 hf4
  refine ⟨i1, i2, i3, i4, a1, a2, b1, b2, ?_, ha1, ha2, hb1, hb2,
    ha1x, ha2x, hb1x, hb2x, ?_, ?_⟩
  · simp only [extent_ind, hf1, hf2, hf3, hf4]
  · have hm : np_interp lon_min (u :: ur) (castRange 0 (u :: ur).length) ≤
        np_interp lon_max (u :: ur) (castRange 0 (u :: ur).length) :=
      np_interp_mono (u :: ur) (castRange 0 (u :: ur).length) lon_min lon_max
        (by rw [castRange_length]) hlon (castRange_chain _ _) hbox1
    have := (Int.floor_mono hm).trans (Int.floor_le_ceil _)
    rw [hf1, hf2] at this
    exact_mod_cast this
  · have hm : np_interp lat_min (v :: vr) (castRange 0 (v :: vr).length) ≤
        np_interp lat_max (v :: vr) (castRange 0 (v :: vr).length) :=
      np_interp_mono (v :: vr) (castRange 0 (v :: vr).length) lat_min lat_max
        (by rw [castRange_length]) hlat (castRange_chain _ _) hbox2
    have := (Int.floor_mono hm).trans (Int.floor_le_ceil _)
    rw [hf3, hf4] at this
    exact_mod_cast this

/-- C1 witness: the theorem at the spec's example axis
`[-100, -95, -90, -85, -80]` with box `[-97, -93]` (and a latitude axis
`[10, 20, 30]` with box `[12, 25]`). -/
theorem c1_grid_index_coverage_witness :
    List.Chain' (· < ·) [(-100 : ℚ), -95, -90, -85, -80] ∧
    (-100 : ℚ) < -97 ∧ (-93 : ℚ) < -80 ∧
    ∃ (i1 i2 i3 i4 : ℕ) (a1 a2 b1 b2 : ℚ),
      extent_ind (-97) (-93) 12 25
          [(-100 : ℚ), -95, -90, -85, -80]
          (castRange 0 ([(-100 : ℚ), -95, -90, -85, -80]).length)
          [(10 : ℚ), 20, 30]
          (castRange 0 ([(10 : ℚ), 20, 30]).length) =
        [(i1 : ℤ), (i2 : ℤ), (i3 : ℤ), (i4 : ℤ)] ∧
      [(-100 : ℚ), -95, -90, -85, -80].get? i1 = some a1 ∧
      [(-100 : ℚ), -95, -90, -85, -80].get? i2 = some a2 ∧
      [(10 : ℚ), 20, 30].get? i3 = some b1 ∧
      [(10 : ℚ), 20, 30].get? i4 = some b2 ∧
      a1 ≤ -97 ∧ -93 ≤ a2 ∧ b1 ≤ 12 ∧ 25 ≤ b2 ∧
      i1 ≤ i2 ∧ i3 ≤ i4 :=
  ⟨by norm_num [List.chain'_cons], by norm_num, by norm_num,
   c1_grid_index_coverage (-97) (-93) 12 25
     [(-100 : ℚ), -95, -90, -85, -80] [(10 : ℚ), 20, 30]
     (-100) (-80) 10 30
     (by norm_num [List.chain'_cons]) (by norm_num [List.chain'_cons])
     rfl rfl rfl rfl
     (by norm_num) (by norm_num)
     (by norm_num) (by norm_num) (by norm_num) (by norm_num)⟩

/-- C8: the grid index mapping is a total function (it has no error path) and
for every monotonic pair of axes — the coordinate sequence strictly
increasing, the index sequence non-decreasing and at least as long — and every
bounding box with `lon_min ≤ lon_max` and `lat_min ≤ lat_max`, including boxes
partly or wholly outside the axis's coordinate range (which are clamped or
extrapolated, never rejected), it returns integer inclusive index ranges with
`min_index ≤ max_index` on each axis. -/
theorem c8_extent_ind_invariant
    (lon_min lon_max lat_min lat_max : ℚ) (glons gx glats gy : List ℚ)
    (hbox1 : lon_min ≤ lon_max) (hbox2 : lat_min ≤ lat_max)
    (hlon : List.Chain' (· < ·) glons) (hgx : List.Chain' (· ≤ ·) gx)
    (hlat : List.Chain' (· < ·) glats) (hgy : List.Chain' (· ≤ ·) gy)
    (hlen1 : glons.length ≤ gx.length) (hlen2 : glats.length ≤ gy.length) :
    ∃ i1 i2 i3 i4 : ℤ,
      extent_ind lon_min lon_max lat_min lat_max glons gx glats gy =
        [i1, i2, i3, i4] ∧ i1 ≤ i2 ∧ i3 ≤ i4 := by
  refine ⟨_, _, _, _, rfl, ?_, ?_⟩
  · exact (Int.floor_mono
      (np_interp_mono glons gx lon_min lon_max hlen1 hlon hgx hbox1)).trans
      (Int.floor_le_ceil _)
  · exact (Int.floor_mono
      (np_interp_mono glats gy lat_min lat_max hlen2 hlat hgy hbox2)).trans
      (Int.floor_le_ceil _)

/-- C8 witness: the theorem at concrete axes with a box wholly outside the
longitude range (out-of-range boxes are accepted). -/
theorem c8_extent_ind_invariant_witness :
    (-120 : ℚ) ≤ -50 ∧
    List.Chain' (· < ·) [(-100 : ℚ), -95, -90] ∧
    ∃ i1 i2 i3 i4 : ℤ,
      extent_ind (-120) (-50) 0 50
          [(-100 : ℚ), -95, -90] [(0 : ℚ), 1, 2]
          [(5 : ℚ), 10] [(0 : ℚ), 1] = [i1, i2, i3, i4] ∧
      i1 ≤ i2 ∧ i3 ≤ i4 :=
  ⟨by norm_num, by norm_num [List.chain'_cons],
   c8_extent_ind_invariant (-120) (-50) 0 50
     [(-100 : ℚ), -95, -90] [(0 : ℚ), 1, 2] [(5 : ℚ), 10] [(0 : ℚ), 1]
     (by norm_num) (by norm_num)
     (by norm_num [List.chain'_cons]) (by norm_num [List.chain'_cons])
     (by norm_num [List.chain'_cons]) (by norm_num [List.chain'_cons])
     (by norm_num) (by norm_num)⟩

/-! ## Region catalog (`hurricanes/regions.py`, `region_config`)

The function holds twelve literal `if key in regions:` blocks, each assigning
the same seven local variables; the final assembly reads those locals, so a
call in which no block fired raises `NameError`.  The blocks are modelled as a
fixed catalog list folded in source order. -/

/-- One entry of a per-variable limits list
(`dict(depth=…, limits=[min, max, stride])`); `liimits` models the misspelled
key in the prvi depth-200 entry (source line 130). -/
structure VarLim where
  depth : ℚ
  limits : Option (List ℚ)
  liimits : Option (List ℚ)
deriving DecidableEq

/-- The `kwargs` sub-dict of a `currents` dict. -/
structure CurrKwargs where
  ptype : String
  color : String
  density : Option ℚ
  linewidth : Option ℚ
deriving DecidableEq

/-- A `currents` dict. -/
structure Currents where
  bool : Bool
  depths : List ℚ
  coarsen_rtofs : ℚ
  coarsen_gofs : ℚ
  kwargs : CurrKwargs
deriving DecidableEq

/-- A `figure` dict. -/
structure FigureCfg where
  legend_columns : ℕ
  figsize : Option (ℚ × ℚ)
deriving DecidableEq

/-- The seven locals one region block assigns. -/
structure RegionCfg where
  name : String
  extent : List ℚ
  sea_water_temperature : List VarLim
  salinity : List VarLim
  sea_surface_height : List VarLim
  currents : Currents
  figure : FigureCfg
deriving DecidableEq

/-- The `vars` sub-dict of the returned limits dict. -/
structure RegionVars where
  salinity : List VarLim
  temperature : List VarLim
deriving DecidableEq

/-- The returned `limits` dict (`variablesDict` models its `variables` key,
which is a reserved word in Lean). -/
structure Limits where
  name : String
  extent : List ℚ
  currents : Currents
  figure : FigureCfg
  sea_surface_height : List VarLim
  variablesDict : RegionVars
deriving DecidableEq

/-- The uncaught `NameError` raised when the assembly reads an unassigned
local. -/
inductive RegionsErr where
  | nameError : RegionsErr
deriving DecidableEq

/-- Python `key in regions` (list membership). -/
def pyMem (regions : List String) (key : String) : Bool :=
  regions.any (fun r => r == key)

/-- The shared `sea_surface_height` literal `[dict(depth=0, limits=[-.6, .7, .1])]`. -/
def stdSSH : List VarLim := [⟨0, some [-0.6, 0.7, 0.1], none⟩]

/-- The shared `kwargs=dict(ptype="streamplot", color="black")` literal. -/
def stdKwargs : CurrKwargs := ⟨"streamplot", "black", none, none⟩

/-- Source lines 24-48. -/
def ng645Cfg : RegionCfg :=
  ⟨"ng645-20211010T0000", [-92, -76, 22, 34],
   [⟨0, some [24.25, 28, 0.25], none⟩, ⟨200, some [14, 23, 0.5], none⟩],
   [⟨0, some [35.7, 36.2, 0.05], none⟩],
   stdSSH, ⟨true, [0, 150, 200], 2, 3, stdKwargs⟩, ⟨5, none⟩⟩

/-- Source lines 50-85. -/
def hurricaneCfg : RegionCfg :=
  ⟨"Hurricane Alley", [-89, -12, 0, 20],
   [],
   [⟨150, some [35.7, 36.4, 0.05], none⟩],
   stdSSH, ⟨true, [0, 150, 200], 11, 12, ⟨"streamplot", "black", some 4, some 0.5⟩⟩,
   ⟨9, none⟩⟩

/-- Source lines 87-120. -/
def yucatanCfg : RegionCfg :=
  ⟨"Yucatan", [-90, -78, 18, 26],
   [⟨0, some [24, 29.5, 0.5], none⟩, ⟨150, some [18, 25.5, 0.5], none⟩,
    ⟨200, some [14, 23, 0.5], none⟩],
   [⟨0, some [35.8, 36.6, 0.1], none⟩, ⟨150, some [36, 36.7, 0.05], none⟩,
    ⟨200, some [36, 36.8, 0.05], none⟩],
   stdSSH, ⟨true, [0, 150, 200], 5, 6, stdKwargs⟩, ⟨9, none⟩⟩

/-- Source lines 122-156 (the depth-200 temperature entry misspells `limits`
as `liimits`). -/
def prviCfg : RegionCfg :=
  ⟨"Puerto Rico and Virgin Islands", [-72, -64, 15, 20],
   [⟨0, some [26.5, 28.75, 0.25], none⟩, ⟨150, some [19.5, 24, 0.5], none⟩,
    ⟨200, none, some [16.5, 21.75, 0.25]⟩],
   [⟨0, some [35.5, 36.3, 0.1], none⟩, ⟨150, some [35.6, 37.3, 0.1], none⟩,
    ⟨200, some [35.6, 37, 0.1], none⟩],
   stdSSH, ⟨true, [0, 150, 200], 1, 1, stdKwargs⟩, ⟨9, none⟩⟩

/-- Source lines 158-192. -/
def usviCfg : RegionCfg :=
  ⟨"Virgin Islands", [-66.26, -62.61, 16.5, 19],
   [⟨0, some [26.6, 28.1, 0.1], none⟩, ⟨150, some [20, 23.25, 0.25], none⟩,
    ⟨200, none, none⟩],
   [⟨0, some [35.5, 36.2, 0.05], none⟩, ⟨150, some [36, 37, 0.05], none⟩,
    ⟨200, some [35.8, 37.1, 0.1], none⟩],
   stdSSH, ⟨true, [0, 150, 200], 2, 3, stdKwargs⟩, ⟨9, none⟩⟩

/-- Source lines 194-226. -/
def westIndiesCfg : RegionCfg :=
  ⟨"West Indies", [-67, -61, 14, 19],
   [⟨0, some [27.5, 29.5, 0.25], none⟩, ⟨150, none, none⟩],
   [⟨0, some [34, 36.5, 0.25], none⟩, ⟨150, none, none⟩],
   stdSSH, ⟨true, [0, 150, 200], 2, 3, stdKwargs⟩, ⟨9, none⟩⟩

/-- Source lines 228-262. -/
def gomCfg : RegionCfg :=
  ⟨"Gulf of Mexico", [-99, -79, 18, 31],
   [⟨0, some [26, 30, 0.25], none⟩, ⟨150, some [15, 26, 0.5], none⟩,
    ⟨200, some [12, 22.5, 0.5], none⟩],
   [⟨0, some [34, 36.7, 0.1], none⟩, ⟨150, some [36, 37, 0.1], none⟩,
    ⟨200, some [35.8, 36.8, 0.1], none⟩],
   stdSSH, ⟨true, [0, 150, 200], 7, 8, stdKwargs⟩, ⟨9, none⟩⟩

/-- Source lines 264-298. -/
def sabCfg : RegionCfg :=
  ⟨"South Atlantic Bight", [-82, -64, 25, 36],
   [⟨0, some [22, 29, 0.5], none⟩, ⟨150, some [17, 25, 0.5], none⟩,
    ⟨200, some [15, 22.5, 0.5], none⟩],
   [⟨0, some [36, 36.9, 0.1], none⟩, ⟨150, some [36, 36.9, 0.05], none⟩,
    ⟨200, some [35.8, 36.8, 0.1], none⟩],
   stdSSH, ⟨true, [0, 150, 200], 7, 8, stdKwargs⟩, ⟨5, none⟩⟩

/-- Source lines 300-336. -/
def mabCfg : RegionCfg :=
  ⟨"Mid Atlantic Bight", [-77, -67, 35, 43],
   [⟨0, some [10, 25.5, 0.5], none⟩, ⟨100, some [12.5, 22, 0.5], none⟩,
    ⟨150, some [10, 22, 0.5], none⟩, ⟨200, some [8, 21, 1], none⟩],
   [⟨0, some [31, 37, 0.25], none⟩, ⟨100, some [34.7, 36.7, 0.1], none⟩,
    ⟨150, some [35, 36.7, 0.1], none⟩, ⟨200, some [35.2, 36.7, 0.1], none⟩],
   stdSSH, ⟨true, [0, 100, 150, 200], 5, 6, stdKwargs⟩, ⟨5, some (12, 9)⟩⟩

/-- Source lines 338-372. -/
def caribbeanCfg : RegionCfg :=
  ⟨"Caribbean Sea", [-89, -58, 7, 23],
   [⟨0, some [26, 29.25, 0.25], none⟩, ⟨150, some [17, 24.5, 0.5], none⟩,
    ⟨200, some [14, 22, 0.5], none⟩],
   [⟨0, some [34.6, 36.8, 0.1], none⟩, ⟨150, some [35.5, 37.4, 0.1], none⟩,
    ⟨200, some [35.5, 37, 0.1], none⟩],
   stdSSH, ⟨true, [0, 150, 200], 11, 12, stdKwargs⟩, ⟨9, some (16, 7)⟩⟩

/-- Source lines 374-409. -/
def windwardCfg : RegionCfg :=
  ⟨"Windward Islands", [-68.2, -56.4, 9.25, 19.75],
   [⟨0, some [25.25, 28.25, 0.25], none⟩, ⟨150, some [16, 24, 0.5], none⟩,
    ⟨200, some [15, 22, 0.5], none⟩],
   [⟨0, some [34.3, 36.6, 0.1], none⟩, ⟨150, some [35.1, 37.1, 0.1], none⟩,
    ⟨200, some [35.2, 36.9, 0.1], none⟩],
   stdSSH, ⟨true, [0, 150, 200], 5, 6, stdKwargs⟩, ⟨9, some (13, 9)⟩⟩

/-- Source lines 411-446. -/
def amazonCfg : RegionCfg :=
  ⟨"Amazon Plume", [-70, -43, -5, 20],
   [⟨0, none, none⟩, ⟨150, none, none⟩],
   [⟨0, some [33.8, 37.1, 0.1], none⟩, ⟨150, none, none⟩],
   stdSSH, ⟨true, [0, 150, 200], 5, 6, stdKwargs⟩, ⟨9, some (13, 9)⟩⟩

/-- The twelve region blocks in their fixed source order. -/
def catalogBlocks : List (String × RegionCfg) :=
  [("ng645", ng645Cfg), ("hurricane", hurricaneCfg), ("yucatan", yucatanCfg),
   ("prvi", prviCfg), ("usvi", usviCfg), ("west_indies", westIndiesCfg),
   ("gom", gomCfg), ("sab", sabCfg), ("mab", mabCfg),
   ("caribbean", caribbeanCfg), ("windward", windwardCfg), ("amazon", amazonCfg)]

/-- The final assembly (source lines 448-460): `vars` from salinity and
temperature, then `limits` from name, extent, currents, figure,
sea_surface_height and variables. -/
def assembleLimits (c : RegionCfg) : Limits :=
  ⟨c.name, c.extent, c.currents, c.figure, c.sea_surface_height,
   ⟨c.salinity, c.sea_water_temperature⟩⟩

/-- `region_config(regions=None)` (source lines 4-460): `regions or ['gom']`
(so `None` and the empty list both become `['gom']`), then the twelve blocks
run in source order, each overwriting the seven locals when its key is a
member of `regions`; the assembly reads the locals — if no block fired they
are unassigned and the call raises `NameError`.  The `model` parameter is
normalised (line 12) but never used afterwards, so it is omitted here. -/
def region_config (regions : Option (List String)) : Except RegionsErr Limits :=
  let regions2 := match regions with
    | none => ["gom"]
    | some rs => if rs.isEmpty then ["gom"] else rs
  match catalogBlocks.foldl
      (fun acc kb => if pyMem regions2 kb.1 then some kb.2 else acc)
      (none : Option RegionCfg) with
  | some c => .ok (assembleLimits c)
  | none => .error .nameError

theorem getLast?_cons_getD {α : Type} :
    ∀ (l : List α) (a : α), (a :: l).getLast? = some (l.getLast?.getD a) := by
  intro l
  induction l with
  | nil => intro a; rfl
  | cons b bs ih =>
    intro a
    rw [List.getLast?_cons_cons, ih b]
    rfl

theorem blocks_foldl_lastMatch (rs : List String) :
    ∀ (blocks : List (String × RegionCfg)) (st : Option RegionCfg),
      blocks.foldl (fun acc kb => if pyMem rs kb.1 then some kb.2 else acc) st =
      (match (blocks.filter (fun kb => pyMem rs kb.1)).getLast? with
       | some kb => some kb.2
       | none => st) := by
  intro blocks
  induction blocks with
  | nil => intro st; rfl
  | cons kb bs ih =>
    intro st
    cases h : pyMem rs kb.1 with
    | false =>
      simp only [List.foldl_cons, h, Bool.false_eq_true, if_false, List.filter_cons, ih]
    | true =>
      simp only [List.foldl_cons, h, if_true, List.filter_cons, ih]
      rw [getLast?_cons_getD]
      cases hf : (bs.filter (fun kb => pyMem rs kb.1)).getLast? <;> simp [hf]

/-- C10: when the caller's regions list matches at least one cataloged key,
`region_config` returns exactly the configuration of the key that occurs last
in the fixed internal catalog order (the last `if` block in source order whose
key is a member overwrites all seven locals), and the order of keys in the
caller's list has no effect on the result. -/
theorem c10_last_catalog_key_wins :
    (∀ (rs : List String) (kb : String × RegionCfg), rs ≠ [] →
      (catalogBlocks.filter (fun b => pyMem rs b.1)).getLast? = some kb →
      region_config (some rs) = .ok (assembleLimits kb.2)) ∧
    (∀ rs rs' : List String, rs ≠ [] → rs' ≠ [] →
      (∀ k, pyMem rs k = pyMem rs' k) →
      region_config (some rs) = region_config (some rs')) := by
  constructor
  · intro rs kb hne hlast
    have hemp : rs.isEmpty = false := by
      cases rs with
      | nil => exact absurd rfl hne
      | cons a l => rfl
    simp only [region_config, hemp, Bool.false_eq_true, if_false]
    rw [blocks_foldl_lastMatch rs catalogBlocks none, hlast]
  · intro rs rs' hne hne' hmem
    have hemp : rs.isEmpty = false := by
      cases rs with
      | nil => exact absurd rfl hne
      | cons a l => rfl
    have hemp' : rs'.isEmpty = false := by
      cases rs' with
      | nil => exact absurd rfl hne'
      | cons a l => rfl
    have hfilt : catalogBlocks.filter (fun kb => pyMem rs kb.1) =
        catalogBlocks.filter (fun kb => pyMem rs' kb.1) :=
      List.filter_congr (fun b _ => by rw [hmem b.1])
    simp only [region_config, hemp, hemp', Bool.false_eq_true, if_false]
    rw [blocks_foldl_lastMatch rs catalogBlocks none,
        blocks_foldl_lastMatch rs' catalogBlocks none, hfilt]

/-- C10 witness: `['mab', 'yucatan']` returns the `mab` configuration (`mab`
is later in catalog order than `yucatan`), in either input order. -/
theorem c10_last_catalog_key_wins_witness :
    region_config (some ["mab", "yucatan"]) = .ok (assembleLimits mabCfg) ∧
    region_config (some ["mab", "yucatan"]) =
      region_config (some ["yucatan", "mab"]) :=
  ⟨c10_last_catalog_key_wins.1 ["mab", "yucatan"] ("mab", mabCfg)
     (by simp) rfl,
   c10_last_catalog_key_wins.2 ["mab", "yucatan"] ["yucatan", "mab"]
     (by simp) (by simp)
     (fun k => by
       simp only [pyMem, List.any_cons, List.any_nil, Bool.or_false]
       exact Bool.or_comm _ _)⟩

/-- C9 counterexample: the empty regions list contains none of the twelve
cataloged keys, yet the call does not raise an unbound-name error — the
`regions or ['gom']` default treats `[]` like `None` and the Gulf of Mexico
configuration is returned normally. -/
theorem c9_counterexample :
    region_config (some []) = .ok (assembleLimits gomCfg) ∧
    ∀ b ∈ catalogBlocks, pyMem [] b.1 = false :=
  ⟨rfl, fun _ _ => rfl⟩

/-- C9 (amended): for every non-empty regions list containing none of the
twelve cataloged keys, `region_config` raises an unbound-name error when
assembling the result (no empty or partial dictionary, no dedicated error
type); with the default argument (`None`, treated as `['gom']` — as is an
empty list) it returns the Gulf of Mexico configuration normally. -/
theorem c9_region_catalog_miss :
    (∀ rs : List String, rs ≠ [] →
      (∀ b ∈ catalogBlocks, pyMem rs b.1 = false) →
      region_config (some rs) = .error .nameError) ∧
    region_config none = .ok (assembleLimits gomCfg) := by
  constructor
  · intro rs hne hnomem
    have hemp : rs.isEmpty = false := by
      cases rs with
      | nil => exact absurd rfl hne
      | cons a l => rfl
    have hfilt : catalogBlocks.filter (fun kb => pyMem rs kb.1) = [] :=
      List.filter_eq_nil_iff.mpr (fun b hb => by rw [hnomem b hb]; simp)
    simp only [region_config, hemp, Bool.false_eq_true, if_false]
    rw [blocks_foldl_lastMatch rs catalogBlocks none, hfilt]
    rfl
  · rfl

/-- C9 witness: the amended theorem applied to the unknown region list
`['atlantis']` and to the default argument. -/
theorem c9_region_catalog_miss_witness :
    region_config (some ["atlantis"]) = .error .nameError ∧
    region_config none = .ok (assembleLimits gomCfg) :=
  ⟨c9_region_catalog_miss.1 ["atlantis"] (by simp) (by decide),
   c9_region_catalog_miss.2⟩
